import Mathlib

/-!
Verification of the per-connection Kademlia substream handler
(`protocols/kad/src/handler.rs`): a shallow embedding of the handler's data
model and operations, and proofs about its behaviour.

Modelling conventions:
* Payload types that the handler never inspects (peers, records, keys,
  upgrade errors, substreams, wakers) are modelled as `Nat` or lists of `Nat`.
* The `u64` counter `UniqueConnecId` is modelled as `Nat`; the handler only
  increments it and compares stamps for equality.
* Asynchronous I/O on a substream is modelled by an oracle (`SinkOracle`)
  describing the outcome of each readiness poll; one call of the Rust
  `poll_next` loop consumes one oracle entry per loop iteration.
* `Instant::now()` is modelled as a `Nat` supplied with each poll.
* `debug_assert!(false, ..)` sites are modelled as a returned `Bool` flag
  (true when the assertion would fire); the release-mode state change is the
  one performed.
-/

namespace KadHandler

/-- QueryId: opaque identifier supplied by the behaviour (`crate::QueryId`). -/
abbrev QueryId := Nat

/-- KadPeer: opaque peer description in wire messages. -/
abbrev KadPeer := Nat

/-- record_priv::Key: opaque record key. -/
abbrev RecordKey := Nat

/-- record_priv::Record: opaque record value (the handler never inspects it). -/
abbrev Record := Nat

/-- A negotiated substream sink token (`KadInStreamSink`/`KadOutStreamSink`).
The actual I/O behaviour is supplied by oracles, so the sink itself is opaque. -/
abbrev Substream := Nat

/-- A parked task waker (`std::task::Waker`), opaque token. -/
abbrev Waker := Nat

/-- An upgrade error payload (`StreamUpgradeError<io::Error>`), opaque. -/
abbrev UpgradeError := Nat

/-- A protocol name (`StreamProtocol`), opaque. -/
abbrev ProtocolName := Nat

/-- io::Error, distinguishing `UnexpectedEof` (constructed by the handler at
end-of-stream) from every other error kind. -/
inductive IoError where
  | unexpectedEof : IoError
  | other : Nat → IoError
deriving DecidableEq, Repr

/-- The `ConnectedPoint` of the connection (only echoed into events). -/
inductive ConnectedPoint where
  | Dialer : ConnectedPoint
  | Listener : ConnectedPoint
deriving DecidableEq, Repr

/-- Modelled from the spec: the operating mode of `crate::behaviour::Mode`
(`Client` accepts no inbound work, `Server` does); the defining module is not
among the repository files provided. -/
inductive Mode where
  | Client : Mode
  | Server : Mode
deriving DecidableEq, Repr

/-- Modelled from the spec: the request message set of `KadRequestMsg`
(`protocols/kad/src/protocol.rs` is not among the files provided); variants and
payloads follow the spec's §3 wire message set and the patterns matched in
`handler.rs`. -/
inductive KadRequestMsg where
  | Ping : KadRequestMsg
  | FindNode (key : List Nat) : KadRequestMsg
  | GetProviders (key : RecordKey) : KadRequestMsg
  | AddProvider (key : RecordKey) (provider : KadPeer) : KadRequestMsg
  | GetValue (key : RecordKey) : KadRequestMsg
  | PutValue (record : Record) : KadRequestMsg
deriving DecidableEq, Repr

/-- Modelled from the spec: the response message set of `KadResponseMsg`
(`protocols/kad/src/protocol.rs` is not among the files provided); variants and
payloads follow the spec's §3 wire message set and the patterns matched in
`handler.rs`. -/
inductive KadResponseMsg where
  | Pong : KadResponseMsg
  | FindNode (closerPeers : List KadPeer) : KadResponseMsg
  | GetProviders (closerPeers : List KadPeer) (providerPeers : List KadPeer) : KadResponseMsg
  | GetValue (record : Option Record) (closerPeers : List KadPeer) : KadResponseMsg
  | PutValue (key : RecordKey) (value : List Nat) : KadResponseMsg
deriving DecidableEq, Repr

/-- `HandlerQueryErr`: error reported for an outbound query. -/
inductive HandlerQueryErr where
  | Upgrade (err : UpgradeError) : HandlerQueryErr
  | UnexpectedMessage : HandlerQueryErr
  | Io (err : IoError) : HandlerQueryErr
deriving DecidableEq, Repr

/-- `UniqueConnecId(u64)`: per-handler monotone stamp, modelled as `Nat`. -/
abbrev UniqueConnecId := Nat

/-- `RequestId`: wraps the `UniqueConnecId` stamped on an inbound exchange. -/
structure RequestId where
  connec_unique_id : UniqueConnecId
deriving DecidableEq, Repr

/-- `ProtocolStatus`: whether the remote supports our protocol and whether
that was reported to the behaviour. -/
structure ProtocolStatus where
  supported : Bool
  reported : Bool
deriving DecidableEq, Repr

/-- `HandlerEvent`: events the handler sends to the behaviour. -/
inductive HandlerEvent where
  | ProtocolConfirmed (endpoint : ConnectedPoint) : HandlerEvent
  | ProtocolNotSupported (endpoint : ConnectedPoint) : HandlerEvent
  | FindNodeReq (key : List Nat) (request_id : RequestId) : HandlerEvent
  | FindNodeRes (closer_peers : List KadPeer) (query_id : QueryId) : HandlerEvent
  | GetProvidersReq (key : RecordKey) (request_id : RequestId) : HandlerEvent
  | GetProvidersRes (closer_peers : List KadPeer) (provider_peers : List KadPeer)
      (query_id : QueryId) : HandlerEvent
  | QueryError (error : HandlerQueryErr) (query_id : QueryId) : HandlerEvent
  | AddProvider (key : RecordKey) (provider : KadPeer) : HandlerEvent
  | GetRecord (key : RecordKey) (request_id : RequestId) : HandlerEvent
  | GetRecordRes (record : Option Record) (closer_peers : List KadPeer)
      (query_id : QueryId) : HandlerEvent
  | PutRecord (record : Record) (request_id : RequestId) : HandlerEvent
  | PutRecordRes (key : RecordKey) (value : List Nat) (query_id : QueryId) : HandlerEvent
deriving DecidableEq, Repr

/-- `HandlerIn`: commands the behaviour sends to the handler. -/
inductive HandlerIn where
  | Reset (request_id : RequestId) : HandlerIn
  | ReconfigureMode (new_mode : Mode) : HandlerIn
  | FindNodeReq (key : List Nat) (query_id : QueryId) : HandlerIn
  | FindNodeRes (closer_peers : List KadPeer) (request_id : RequestId) : HandlerIn
  | GetProvidersReq (key : RecordKey) (query_id : QueryId) : HandlerIn
  | GetProvidersRes (closer_peers : List KadPeer) (provider_peers : List KadPeer)
      (request_id : RequestId) : HandlerIn
  | AddProvider (key : RecordKey) (provider : KadPeer) : HandlerIn
  | GetRecord (key : RecordKey) (query_id : QueryId) : HandlerIn
  | GetRecordRes (record : Option Record) (closer_peers : List KadPeer)
      (request_id : RequestId) : HandlerIn
  | PutRecord (record : Record) (query_id : QueryId) : HandlerIn
  | PutRecordRes (key : RecordKey) (value : List Nat) (request_id : RequestId) : HandlerIn
deriving DecidableEq, Repr

/-- The events a `ConnectionHandler::poll` can return (only the two variants
the kad handler constructs). -/
inductive ConnectionHandlerEvent where
  | OutboundSubstreamRequest : ConnectionHandlerEvent
  | NotifyBehaviour (ev : HandlerEvent) : ConnectionHandlerEvent
deriving DecidableEq, Repr

/-- `KeepAlive` of libp2p-swarm, as used by the handler (spec §5: keep while
busy / keep until a deadline / close now). `Until` carries an instant as `Nat`. -/
inductive KeepAlive where
  | Yes : KeepAlive
  | Until (instant : Nat) : KeepAlive
  | No : KeepAlive
deriving DecidableEq, Repr

/-- `OutboundSubstreamState`: state of one active outbound exchange. -/
inductive OutboundSubstreamState where
  | PendingSend (s : Substream) (msg : KadRequestMsg) (query_id : Option QueryId) :
      OutboundSubstreamState
  | PendingFlush (s : Substream) (query_id : Option QueryId) : OutboundSubstreamState
  | WaitingAnswer (s : Substream) (query_id : QueryId) : OutboundSubstreamState
  | ReportError (error : HandlerQueryErr) (query_id : QueryId) : OutboundSubstreamState
  | Closing (s : Substream) : OutboundSubstreamState
  | Done : OutboundSubstreamState
  | Poisoned : OutboundSubstreamState
deriving DecidableEq, Repr

/-- `InboundSubstreamState`: state of one active inbound exchange. The
`PhantomData` field of the source's `Poisoned` variant is zero-sized and
dropped. -/
inductive InboundSubstreamState where
  | WaitingMessage (first : Bool) (connection_id : UniqueConnecId) (substream : Substream) :
      InboundSubstreamState
  | WaitingBehaviour (id : UniqueConnecId) (s : Substream) (waker : Option Waker) :
      InboundSubstreamState
  | PendingSend (id : UniqueConnecId) (s : Substream) (msg : KadResponseMsg) :
      InboundSubstreamState
  | PendingFlush (id : UniqueConnecId) (s : Substream) : InboundSubstreamState
  | Closing (s : Substream) : InboundSubstreamState
  | Cancelled : InboundSubstreamState
  | Poisoned : InboundSubstreamState
deriving DecidableEq, Repr

/-- `compute_new_protocol_status` (handler.rs:833-866). The source's
`remote_peer_id` and `connection_id` parameters are used only for logging and
are omitted. -/
def compute_new_protocol_status (now_supported : Bool)
    (current_status : Option ProtocolStatus) : ProtocolStatus :=
  match current_status with
  | none => { supported := now_supported, reported := false }
  | some current =>
    if now_supported = current.supported then
      { supported := now_supported, reported := true }
    else
      { supported := now_supported, reported := false }

/-- `process_kad_response` (handler.rs:1166-1203): map a response message to
the behaviour event keyed by the originating query id. -/
def process_kad_response (event : KadResponseMsg) (query_id : QueryId) : HandlerEvent :=
  match event with
  | KadResponseMsg.Pong =>
      HandlerEvent.QueryError HandlerQueryErr.UnexpectedMessage query_id
  | KadResponseMsg.FindNode closer_peers =>
      HandlerEvent.FindNodeRes closer_peers query_id
  | KadResponseMsg.GetProviders closer_peers provider_peers =>
      HandlerEvent.GetProvidersRes closer_peers provider_peers query_id
  | KadResponseMsg.GetValue record closer_peers =>
      HandlerEvent.GetRecordRes record closer_peers query_id
  | KadResponseMsg.PutValue key value =>
      HandlerEvent.PutRecordRes key value query_id

/-- Result of `InboundSubstreamState::try_answer_with` (handler.rs:155-183):
the updated state, whether the exchange accepted the message (`Ok(())` in the
source; on refusal the message is handed back), and the waker woken on
acceptance, if one was stored. -/
structure TryAnswerResult where
  state : InboundSubstreamState
  accepted : Bool
  woken : Option Waker
deriving DecidableEq, Repr

/-- `InboundSubstreamState::try_answer_with` (handler.rs:155-183). -/
def InboundSubstreamState.try_answer_with (st : InboundSubstreamState)
    (id : RequestId) (msg : KadResponseMsg) : TryAnswerResult :=
  match st with
  | InboundSubstreamState.WaitingBehaviour conn_id substream waker =>
    if conn_id = id.connec_unique_id then
      { state := InboundSubstreamState.PendingSend conn_id substream msg
        accepted := true
        woken := waker }
    else
      { state := InboundSubstreamState.WaitingBehaviour conn_id substream waker
        accepted := false
        woken := none }
  | other => { state := other, accepted := false, woken := none }

/-- `InboundSubstreamState::close` (handler.rs:185-204): collapse any
substream-owning state to `Closing`; `Cancelled` stays `Cancelled`. The
source's `Poisoned` branch is `unreachable!` (reachable pools never hold
`Poisoned`, see `reachable_inv`); the model maps it to itself. -/
def InboundSubstreamState.close (st : InboundSubstreamState) : InboundSubstreamState :=
  match st with
  | InboundSubstreamState.WaitingMessage _ _ substream =>
      InboundSubstreamState.Closing substream
  | InboundSubstreamState.WaitingBehaviour _ substream _ =>
      InboundSubstreamState.Closing substream
  | InboundSubstreamState.PendingSend _ substream _ =>
      InboundSubstreamState.Closing substream
  | InboundSubstreamState.PendingFlush _ substream =>
      InboundSubstreamState.Closing substream
  | InboundSubstreamState.Closing substream =>
      InboundSubstreamState.Closing substream
  | InboundSubstreamState.Cancelled => InboundSubstreamState.Cancelled
  | InboundSubstreamState.Poisoned => InboundSubstreamState.Poisoned

/-- Outcome of one I/O readiness operation (`std::task::Poll`). -/
inductive PollOf (α : Type) where
  | ready (a : α) : PollOf α
  | pending : PollOf α
deriving DecidableEq, Repr

/-- Success or I/O failure of one sink operation. -/
inductive IoResult (α : Type) where
  | ok (a : α) : IoResult α
  | err (e : IoError) : IoResult α
deriving DecidableEq, Repr

/-- Oracle for one loop iteration of an exchange's `poll_next`: the outcome of
each readiness operation the iteration may perform on its substream, and the
waker of the polling task (`cx.waker()`). -/
structure SinkOracle where
  pollReady : PollOf (IoResult Unit)
  startSend : IoResult Unit
  pollFlush : PollOf (IoResult Unit)
  pollNextResponse : PollOf (Option (IoResult KadResponseMsg))
  pollNextRequest : PollOf (Option (IoResult KadRequestMsg))
  pollClose : PollOf (IoResult Unit)
  waker : Waker
deriving DecidableEq, Repr

/-- Outcome of one iteration of an exchange's `poll_next` loop: continue the
loop with a new state, suspend (`Poll::Pending`), yield `Poll::Ready(Some _)`
leaving a new state stored, or terminate with `Poll::Ready(None)`. -/
inductive StepResult (σ : Type) where
  | cont (next : σ) : StepResult σ
  | pend (next : σ) : StepResult σ
  | yield (next : σ) (ev : ConnectionHandlerEvent) : StepResult σ
  | finished : StepResult σ
deriving DecidableEq, Repr

/-- Result of one full `poll_next` call on an exchange. -/
inductive StreamPollResult (σ : Type) where
  | pending (st : σ) : StreamPollResult σ
  | yielded (st : σ) (ev : ConnectionHandlerEvent) : StreamPollResult σ
  | finished : StreamPollResult σ
deriving DecidableEq, Repr

/-- One iteration of `Stream::poll_next for OutboundSubstreamState`
(handler.rs:886-1012). The `Poisoned` branch is `unreachable!` in the source
(reachable pools never hold `Poisoned`, see `reachable_inv`); the model
terminates the stream there. -/
def outbound_step (st : OutboundSubstreamState) (o : SinkOracle) :
    StepResult OutboundSubstreamState :=
  match st with
  | .PendingSend substream msg query_id =>
    match o.pollReady with
    | .ready (.ok _) =>
      match o.startSend with
      | .ok _ => .cont (.PendingFlush substream query_id)
      | .err e =>
        match query_id with
        | some qid =>
            .yield .Done (.NotifyBehaviour (.QueryError (.Io e) qid))
        | none => .finished
    | .pending => .pend (.PendingSend substream msg query_id)
    | .ready (.err e) =>
      match query_id with
      | some qid => .yield .Done (.NotifyBehaviour (.QueryError (.Io e) qid))
      | none => .finished
  | .PendingFlush substream query_id =>
    match o.pollFlush with
    | .ready (.ok _) =>
      match query_id with
      | some qid => .cont (.WaitingAnswer substream qid)
      | none => .cont (.Closing substream)
    | .pending => .pend (.PendingFlush substream query_id)
    | .ready (.err e) =>
      match query_id with
      | some qid => .yield .Done (.NotifyBehaviour (.QueryError (.Io e) qid))
      | none => .finished
  | .WaitingAnswer substream query_id =>
    match o.pollNextResponse with
    | .ready (some (.ok msg)) =>
        .yield (.Closing substream)
          (.NotifyBehaviour (process_kad_response msg query_id))
    | .pending => .pend (.WaitingAnswer substream query_id)
    | .ready (some (.err e)) =>
        .yield .Done (.NotifyBehaviour (.QueryError (.Io e) query_id))
    | .ready none =>
        .yield .Done
          (.NotifyBehaviour (.QueryError (.Io .unexpectedEof) query_id))
  | .ReportError error query_id =>
      .yield .Done (.NotifyBehaviour (.QueryError error query_id))
  | .Closing substream =>
    match o.pollClose with
    | .ready _ => .finished
    | .pending => .pend (.Closing substream)
  | .Done => .finished
  | .Poisoned => .finished

/-- One iteration of `Stream::poll_next for InboundSubstreamState`
(handler.rs:1015-1163). As above, the `Poisoned` branch is `unreachable!` in
the source and terminates the stream in the model. -/
def inbound_step (st : InboundSubstreamState) (o : SinkOracle) :
    StepResult InboundSubstreamState :=
  match st with
  | .WaitingMessage first connection_id substream =>
    match o.pollNextRequest with
    | .ready (some (.ok KadRequestMsg.Ping)) => .cont (.Closing substream)
    | .ready (some (.ok (KadRequestMsg.FindNode key))) =>
        .yield (.WaitingBehaviour connection_id substream none)
          (.NotifyBehaviour (.FindNodeReq key ⟨connection_id⟩))
    | .ready (some (.ok (KadRequestMsg.GetProviders key))) =>
        .yield (.WaitingBehaviour connection_id substream none)
          (.NotifyBehaviour (.GetProvidersReq key ⟨connection_id⟩))
    | .ready (some (.ok (KadRequestMsg.AddProvider key provider))) =>
        .yield (.WaitingMessage false connection_id substream)
          (.NotifyBehaviour (.AddProvider key provider))
    | .ready (some (.ok (KadRequestMsg.GetValue key))) =>
        .yield (.WaitingBehaviour connection_id substream none)
          (.NotifyBehaviour (.GetRecord key ⟨connection_id⟩))
    | .ready (some (.ok (KadRequestMsg.PutValue record))) =>
        .yield (.WaitingBehaviour connection_id substream none)
          (.NotifyBehaviour (.PutRecord record ⟨connection_id⟩))
    | .pending => .pend (.WaitingMessage first connection_id substream)
    | .ready none => .finished
    | .ready (some (.err _)) => .finished
  | .WaitingBehaviour id substream _ =>
      .pend (.WaitingBehaviour id substream (some o.waker))
  | .PendingSend id substream msg =>
    match o.pollReady with
    | .ready (.ok _) =>
      match o.startSend with
      | .ok _ => .cont (.PendingFlush id substream)
      | .err _ => .finished
    | .pending => .pend (.PendingSend id substream msg)
    | .ready (.err _) => .finished
  | .PendingFlush id substream =>
    match o.pollFlush with
    | .ready (.ok _) => .cont (.WaitingMessage false id substream)
    | .pending => .pend (.PendingFlush id substream)
    | .ready (.err _) => .finished
  | .Closing substream =>
    match o.pollClose with
    | .ready _ => .finished
    | .pending => .pend (.Closing substream)
  | .Cancelled => .finished
  | .Poisoned => .finished

/-- The `loop` driver shared by both `poll_next` implementations: run loop
iterations while the state machine continues, consuming one oracle entry per
iteration. An exhausted oracle makes no further I/O progress (the call is
suspended with its current state, as on `Poll::Pending`). -/
def drive {σ : Type} (step : σ → SinkOracle → StepResult σ) :
    σ → List SinkOracle → StreamPollResult σ
  | st, [] => .pending st
  | st, o :: rest =>
    match step st o with
    | .cont next => drive step next rest
    | .pend next => .pending next
    | .yield next ev => .yielded next ev
    | .finished => .finished

/-- One `poll_next` call on an outbound exchange. -/
def outbound_poll_next : OutboundSubstreamState → List SinkOracle →
    StreamPollResult OutboundSubstreamState :=
  drive outbound_step

/-- One `poll_next` call on an inbound exchange. -/
def inbound_poll_next : InboundSubstreamState → List SinkOracle →
    StreamPollResult InboundSubstreamState :=
  drive inbound_step

/-- One `SelectAll::poll_next` over a pool of exchanges: poll each exchange in
order with its oracle; an exchange that finishes is removed, and the first
yielded event ends the sweep with the later exchanges left unpolled. Exchanges
beyond the oracle list are left unpolled. -/
def poll_pool {σ : Type} (pollOne : σ → List SinkOracle → StreamPollResult σ) :
    List σ → List (List SinkOracle) → List σ × Option ConnectionHandlerEvent
  | [], _ => ([], none)
  | sts, [] => (sts, none)
  | st :: rest, os :: orest =>
    match pollOne st os with
    | .pending st' =>
      let (rest', ev) := poll_pool pollOne rest orest
      (st' :: rest', ev)
    | .yielded st' ev => (st' :: rest, some ev)
    | .finished => poll_pool pollOne rest orest

/-- `MAX_NUM_SUBSTREAMS` (handler.rs:47). -/
def MAX_NUM_SUBSTREAMS : Nat := 32

/-- The `Handler` state (handler.rs:56-99). `protocol_config` is kept as its
set of configured protocol names; `remote_peer_id` and `connection_id` are
used only in log lines and omitted. `env_pending_negotiations` is a ghost
field counting `OutboundSubstreamRequest`s emitted but not yet resolved by the
connection layer; no handler operation reads it. -/
structure Handler where
  protocol_config : List ProtocolName
  mode : Mode
  idle_timeout : Nat
  next_connec_unique_id : UniqueConnecId
  outbound_substreams : List OutboundSubstreamState
  num_requested_outbound_streams : Nat
  pending_messages : List (KadRequestMsg × Option QueryId)
  inbound_substreams : List InboundSubstreamState
  keep_alive : KeepAlive
  endpoint : ConnectedPoint
  protocol_status : Option ProtocolStatus
  remote_supported_protocols : List ProtocolName
  env_pending_negotiations : Nat
deriving DecidableEq, Repr

/-- `Handler::new` (handler.rs:466-506), called at instant `now`. -/
def Handler.new (protocol_config : List ProtocolName) (idle_timeout : Nat)
    (endpoint : ConnectedPoint) (mode : Mode) (now : Nat) : Handler :=
  { protocol_config := protocol_config
    mode := mode
    idle_timeout := idle_timeout
    next_connec_unique_id := 0
    outbound_substreams := []
    num_requested_outbound_streams := 0
    pending_messages := []
    inbound_substreams := []
    keep_alive := KeepAlive.Until (now + idle_timeout)
    endpoint := endpoint
    protocol_status := none
    remote_supported_protocols := []
    env_pending_negotiations := 0 }

/-- Debug-mode panic indicators of one processing step: `assertFired` marks a
`debug_assert!(false, ..)` that would fire, `underflow` a decrement of
`num_requested_outbound_streams` at zero (both panic in debug builds; the state
recorded is the release-mode result). -/
structure StepFlags where
  assertFired : Bool
  underflow : Bool
deriving DecidableEq, Repr

/-- No debug-mode panic. -/
def StepFlags.clear : StepFlags := { assertFired := false, underflow := false }

/-- `Handler::on_fully_negotiated_outbound` (handler.rs:508-533), receiving
the negotiated substream `s`. -/
def Handler.on_fully_negotiated_outbound (h : Handler) (s : Substream) :
    Handler × StepFlags :=
  let (outbound', pending', fired) :=
    match h.pending_messages with
    | (msg, query_id) :: rest =>
      (h.outbound_substreams ++ [OutboundSubstreamState.PendingSend s msg query_id],
        rest, false)
    | [] => (h.outbound_substreams, [], true)
  let status' :=
    match h.protocol_status with
    | none => some { supported := true, reported := false }
    | some st => some st
  ({ h with
      outbound_substreams := outbound'
      pending_messages := pending'
      num_requested_outbound_streams := h.num_requested_outbound_streams - 1
      env_pending_negotiations := h.env_pending_negotiations - 1
      protocol_status := status' },
    { assertFired := fired, underflow := h.num_requested_outbound_streams == 0 })

/-- The eviction search of handler.rs:560-567: replace the first exchange in
`WaitingMessage { first: false }` by `Cancelled`; `none` when no exchange of
the pool is in that state. -/
def cancel_first_reusable :
    List InboundSubstreamState → Option (List InboundSubstreamState)
  | [] => none
  | st :: rest =>
    match st with
    | InboundSubstreamState.WaitingMessage false _ _ =>
        some (InboundSubstreamState.Cancelled :: rest)
    | _ => (cancel_first_reusable rest).map (st :: ·)

/-- `Handler::on_fully_negotiated_inbound` (handler.rs:535-591) in Server mode
(in Client mode the inbound upgrade is denied and this event cannot occur),
receiving the negotiated substream `s`. -/
def Handler.on_fully_negotiated_inbound (h : Handler) (s : Substream) : Handler :=
  let h1 :=
    match h.protocol_status with
    | none => { h with protocol_status := some { supported := true, reported := false } }
    | some _ => h
  if h1.inbound_substreams.length = MAX_NUM_SUBSTREAMS then
    match cancel_first_reusable h1.inbound_substreams with
    | some inbound' =>
      { h1 with
          inbound_substreams := inbound' ++
            [InboundSubstreamState.WaitingMessage true h1.next_connec_unique_id s]
          next_connec_unique_id := h1.next_connec_unique_id + 1 }
    | none => h1
  else
    { h1 with
        inbound_substreams := h1.inbound_substreams ++
          [InboundSubstreamState.WaitingMessage true h1.next_connec_unique_id s]
        next_connec_unique_id := h1.next_connec_unique_id + 1 }

/-- `Handler::on_dial_upgrade_error` (handler.rs:593-611). -/
def Handler.on_dial_upgrade_error (h : Handler) (error : UpgradeError) :
    Handler × StepFlags :=
  let (outbound', pending') :=
    match h.pending_messages with
    | (_, some query_id) :: rest =>
      (h.outbound_substreams ++
        [OutboundSubstreamState.ReportError (HandlerQueryErr.Upgrade error) query_id],
        rest)
    | (_, none) :: rest => (h.outbound_substreams, rest)
    | [] => (h.outbound_substreams, [])
  ({ h with
      outbound_substreams := outbound'
      pending_messages := pending'
      num_requested_outbound_streams := h.num_requested_outbound_streams - 1
      env_pending_negotiations := h.env_pending_negotiations - 1 },
    { assertFired := false, underflow := h.num_requested_outbound_streams == 0 })

/-- The sweep of `Handler::answer_pending_request` (handler.rs:868-881) over
the inbound pool: offer the message to each exchange in order until one
accepts (the message is handed back on each refusal). Returns the updated
pool, whether the closing `debug_assert!` fires (no exchange accepted), and
the waker woken by the accepting exchange. -/
def answer_sweep (rid : RequestId) (msg : KadResponseMsg) :
    List InboundSubstreamState → List InboundSubstreamState × Bool × Option Waker
  | [] => ([], true, none)
  | st :: rest =>
    let r := st.try_answer_with rid msg
    if r.accepted then (r.state :: rest, false, r.woken)
    else
      let (rest', fired, w) := answer_sweep rid msg rest
      (r.state :: rest', fired, w)

/-- `Handler::answer_pending_request` (handler.rs:868-881); the `Bool` is the
`debug_assert!` flag. -/
def Handler.answer_pending_request (h : Handler) (rid : RequestId)
    (msg : KadResponseMsg) : Handler × Bool :=
  let (inbound', fired, _) := answer_sweep rid msg h.inbound_substreams
  ({ h with inbound_substreams := inbound' }, fired)

/-- The `Reset` arm of `on_behaviour_event` (handler.rs:632-645): `close` the
first inbound exchange that is in `WaitingBehaviour` with a stamp equal to the
request id; no-op when none matches. -/
def reset_close (rid : RequestId) :
    List InboundSubstreamState → List InboundSubstreamState
  | [] => []
  | st :: rest =>
    match st with
    | InboundSubstreamState.WaitingBehaviour conn_id s w =>
      if conn_id = rid.connec_unique_id then
        (InboundSubstreamState.WaitingBehaviour conn_id s w).close :: rest
      else
        InboundSubstreamState.WaitingBehaviour conn_id s w :: reset_close rid rest
    | other => other :: reset_close rid rest

/-- `ConnectionHandler::on_behaviour_event` (handler.rs:630-718). The `Bool`
is the `debug_assert!` flag of `answer_pending_request`. -/
def Handler.on_behaviour_event (h : Handler) (message : HandlerIn) : Handler × Bool :=
  match message with
  | HandlerIn.Reset request_id =>
      ({ h with inbound_substreams := reset_close request_id h.inbound_substreams },
        false)
  | HandlerIn.FindNodeReq key query_id =>
      ({ h with pending_messages :=
          h.pending_messages ++ [(KadRequestMsg.FindNode key, some query_id)] }, false)
  | HandlerIn.FindNodeRes closer_peers request_id =>
      h.answer_pending_request request_id (KadResponseMsg.FindNode closer_peers)
  | HandlerIn.GetProvidersReq key query_id =>
      ({ h with pending_messages :=
          h.pending_messages ++ [(KadRequestMsg.GetProviders key, some query_id)] },
        false)
  | HandlerIn.GetProvidersRes closer_peers provider_peers request_id =>
      h.answer_pending_request request_id
        (KadResponseMsg.GetProviders closer_peers provider_peers)
  | HandlerIn.AddProvider key provider =>
      ({ h with pending_messages :=
          h.pending_messages ++ [(KadRequestMsg.AddProvider key provider, none)] },
        false)
  | HandlerIn.GetRecord key query_id =>
      ({ h with pending_messages :=
          h.pending_messages ++ [(KadRequestMsg.GetValue key, some query_id)] }, false)
  | HandlerIn.PutRecord record query_id =>
      ({ h with pending_messages :=
          h.pending_messages ++ [(KadRequestMsg.PutValue record, some query_id)] },
        false)
  | HandlerIn.GetRecordRes record closer_peers request_id =>
      h.answer_pending_request request_id (KadResponseMsg.GetValue record closer_peers)
  | HandlerIn.PutRecordRes key value request_id =>
      h.answer_pending_request request_id (KadResponseMsg.PutValue key value)
  | HandlerIn.ReconfigureMode new_mode => ({ h with mode := new_mode }, false)

/-- The `RemoteProtocolsChange` arm of `on_connection_event`
(handler.rs:812-828). Modelled from the spec for the part outside this file:
`SupportedProtocols::on_protocols_change` applies the delta to the remembered
set and reports whether it changed; the model receives the updated set
directly and compares it with the remembered one. -/
def Handler.on_remote_protocols_change (h : Handler)
    (protocols : List ProtocolName) : Handler :=
  if protocols = h.remote_supported_protocols then h
  else
    let now_supported := protocols.any (fun p => h.protocol_config.contains p)
    { h with
        remote_supported_protocols := protocols
        protocol_status :=
          some (compute_new_protocol_status now_supported h.protocol_status) }

/-- The oracle for one `Handler::poll` call: per-exchange sink oracles for the
outbound and the inbound pool, and the current instant (`Instant::now()`). -/
structure PollInputs where
  outOracles : List (List SinkOracle)
  inOracles : List (List SinkOracle)
  now : Nat
deriving DecidableEq, Repr

/-- Result of one `Handler::poll` call. -/
inductive PollResult where
  | event (ev : ConnectionHandlerEvent) : PollResult
  | pending : PollResult
deriving DecidableEq, Repr

/-- Stages 2-3 of `Handler::poll` (handler.rs:754-760): poll the outbound pool
and, if it yields nothing, the inbound pool. -/
def Handler.poll_pools (h : Handler) (inp : PollInputs) :
    Handler × Option ConnectionHandlerEvent :=
  let (outPool, outEv) := poll_pool outbound_poll_next h.outbound_substreams inp.outOracles
  let h1 := { h with outbound_substreams := outPool }
  match outEv with
  | some ev => (h1, some ev)
  | none =>
    let (inPool, inEv) := poll_pool inbound_poll_next h1.inbound_substreams inp.inOracles
    ({ h1 with inbound_substreams := inPool }, inEv)

/-- Stages 4-5 of `Handler::poll` (handler.rs:762-787): maybe request one new
outbound substream; otherwise update the keep-alive and return `Pending`. -/
def Handler.poll_tail (h : Handler) (now : Nat) : Handler × PollResult :=
  if h.outbound_substreams.length + h.num_requested_outbound_streams < MAX_NUM_SUBSTREAMS
      ∧ h.num_requested_outbound_streams < h.pending_messages.length then
    ({ h with
        num_requested_outbound_streams := h.num_requested_outbound_streams + 1
        env_pending_negotiations := h.env_pending_negotiations + 1 },
      PollResult.event ConnectionHandlerEvent.OutboundSubstreamRequest)
  else
    let noStreams := h.outbound_substreams.isEmpty && h.inbound_substreams.isEmpty
    let ka :=
      match noStreams, h.keep_alive with
      | true, KeepAlive.Until t => KeepAlive.Until t
      | true, _ => KeepAlive.Until (now + h.idle_timeout)
      | false, _ => KeepAlive.Yes
    ({ h with keep_alive := ka }, PollResult.pending)

/-- Stages 2-5 of `Handler::poll`. -/
def Handler.poll_rest (h : Handler) (inp : PollInputs) : Handler × PollResult :=
  match h.poll_pools inp with
  | (h2, some ev) => (h2, PollResult.event ev)
  | (h2, none) => h2.poll_tail inp.now

/-- `ConnectionHandler::poll` (handler.rs:724-788). -/
def Handler.poll (h : Handler) (inp : PollInputs) : Handler × PollResult :=
  match h.protocol_status with
  | some status =>
    if status.reported then h.poll_rest inp
    else
      ({ h with protocol_status := some { status with reported := true } },
        PollResult.event (ConnectionHandlerEvent.NotifyBehaviour
          (if status.supported then HandlerEvent.ProtocolConfirmed h.endpoint
           else HandlerEvent.ProtocolNotSupported h.endpoint)))
  | none => h.poll_rest inp

/-- External inputs to the handler: behaviour commands, connection events and
poll invocations (spec §4.1). The connection events the source ignores
(address change, local protocol changes, listen errors) are folded into
`otherConnectionEvent`. -/
inductive HandlerInput where
  | behaviour (message : HandlerIn) : HandlerInput
  | fullyNegotiatedOutbound (s : Substream) : HandlerInput
  | fullyNegotiatedInbound (s : Substream) : HandlerInput
  | dialUpgradeError (error : UpgradeError) : HandlerInput
  | remoteProtocolsChange (protocols : List ProtocolName) : HandlerInput
  | otherConnectionEvent : HandlerInput
  | poll (inp : PollInputs) : HandlerInput
deriving DecidableEq, Repr

/-- One processing step of the handler on one external input. -/
def Handler.step (h : Handler) : HandlerInput → Handler × StepFlags
  | .behaviour message =>
    let (h', fired) := h.on_behaviour_event message
    (h', { assertFired := fired, underflow := false })
  | .fullyNegotiatedOutbound s => h.on_fully_negotiated_outbound s
  | .fullyNegotiatedInbound s => (h.on_fully_negotiated_inbound s, StepFlags.clear)
  | .dialUpgradeError error => h.on_dial_upgrade_error error
  | .remoteProtocolsChange ps => (h.on_remote_protocols_change ps, StepFlags.clear)
  | .otherConnectionEvent => (h, StepFlags.clear)
  | .poll inp => ((h.poll inp).1, StepFlags.clear)

/-- The connection-layer contract on external input: outcomes of outbound
negotiations are delivered only for substreams actually requested, and inbound
substreams are only negotiated in Server mode (in Client mode
`listen_protocol` returns a denied upgrade, handler.rs:623-628). -/
def ValidInput (h : Handler) : HandlerInput → Prop
  | .fullyNegotiatedOutbound _ => 0 < h.env_pending_negotiations
  | .dialUpgradeError _ => 0 < h.env_pending_negotiations
  | .fullyNegotiatedInbound _ => h.mode = Mode.Server
  | _ => True

/-- Handler states reachable from `Handler::new` under any sequence of
behaviour commands, connection events and poll invocations respecting the
connection-layer contract. -/
inductive Reachable : Handler → Prop where
  | init (protocol_config : List ProtocolName) (idle_timeout : Nat)
      (endpoint : ConnectedPoint) (mode : Mode) (now : Nat) :
      Reachable (Handler.new protocol_config idle_timeout endpoint mode now)
  | step (h : Handler) (inp : HandlerInput) : Reachable h → ValidInput h inp →
      Reachable (h.step inp).1

/-- The state an exchange continues in after one loop iteration, when it does
not terminate. -/
def StepResult.next {σ : Type} : StepResult σ → Option σ
  | .cont n => some n
  | .pend n => some n
  | .yield n _ => some n
  | .finished => none

/-- The event one loop iteration yields, if any. -/
def StepResult.event {σ : Type} : StepResult σ → Option ConnectionHandlerEvent
  | .yield _ ev => some ev
  | _ => none

/-- The state stored after one full `poll_next` call, when the exchange stays
in the pool. -/
def StreamPollResult.next {σ : Type} : StreamPollResult σ → Option σ
  | .pending st => some st
  | .yielded st _ => some st
  | .finished => none

/-- The event one full `poll_next` call yields, if any. -/
def StreamPollResult.event {σ : Type} : StreamPollResult σ → Option ConnectionHandlerEvent
  | .yielded _ ev => some ev
  | _ => none

/-- The `UniqueConnecId` stamped on an inbound exchange, in the states that
carry one. -/
def inbound_stamp : InboundSubstreamState → Option UniqueConnecId
  | .WaitingMessage _ id _ => some id
  | .WaitingBehaviour id _ _ => some id
  | .PendingSend id _ _ => some id
  | .PendingFlush id _ => some id
  | _ => none

/-- The stamps carried by the live inbound exchanges of a pool, in order. -/
def inbound_stamps (pool : List InboundSubstreamState) : List UniqueConnecId :=
  pool.filterMap inbound_stamp

/-- An outbound loop iteration never moves an exchange into `Poisoned`. -/
theorem outbound_step_next_ne_poisoned (st : OutboundSubstreamState) (o : SinkOracle)
    (st' : OutboundSubstreamState) (h : (outbound_step st o).next = some st') :
    st' ≠ OutboundSubstreamState.Poisoned := by
  cases st <;> unfold outbound_step at h <;> (repeat' split at h) <;>
    simp only [StepResult.next, Option.some.injEq, reduceCtorEq] at h <;>
    (try subst h) <;> simp_all

/-- An inbound loop iteration never moves an exchange into `Poisoned`. -/
theorem inbound_step_next_ne_poisoned (st : InboundSubstreamState) (o : SinkOracle)
    (st' : InboundSubstreamState) (h : (inbound_step st o).next = some st') :
    st' ≠ InboundSubstreamState.Poisoned := by
  cases st <;> unfold inbound_step at h <;> (repeat' split at h) <;>
    simp only [StepResult.next, Option.some.injEq, reduceCtorEq] at h <;>
    (try subst h) <;> simp_all

/-- An inbound loop iteration preserves the exchange's stamp or drops it. -/
theorem inbound_step_next_stamp (st : InboundSubstreamState) (o : SinkOracle)
    (st' : InboundSubstreamState) (h : (inbound_step st o).next = some st') :
    inbound_stamp st' = inbound_stamp st ∨ inbound_stamp st' = none := by
  cases st <;> unfold inbound_step at h <;> (repeat' split at h) <;>
    simp only [StepResult.next, Option.some.injEq, reduceCtorEq] at h <;>
    (try subst h) <;> simp_all [inbound_stamp]

/-- Every event an outbound loop iteration yields is a `NotifyBehaviour`. -/
theorem outbound_step_event_notify (st : OutboundSubstreamState) (o : SinkOracle)
    (ev : ConnectionHandlerEvent) (h : (outbound_step st o).event = some ev) :
    ev ≠ ConnectionHandlerEvent.OutboundSubstreamRequest := by
  cases st <;> unfold outbound_step at h <;> (repeat' split at h) <;>
    simp only [StepResult.event, Option.some.injEq, reduceCtorEq] at h <;>
    (try subst h) <;> simp_all

/-- Every event an inbound loop iteration yields is a `NotifyBehaviour`. -/
theorem inbound_step_event_notify (st : InboundSubstreamState) (o : SinkOracle)
    (ev : ConnectionHandlerEvent) (h : (inbound_step st o).event = some ev) :
    ev ≠ ConnectionHandlerEvent.OutboundSubstreamRequest := by
  cases st <;> unfold inbound_step at h <;> (repeat' split at h) <;>
    simp only [StepResult.event, Option.some.injEq, reduceCtorEq] at h <;>
    (try subst h) <;> simp_all

/-- Property transport along the loop driver: a reflexive, transitive relation
respected by single loop iterations is respected by a full `poll_next` call. -/
theorem drive_rel {σ : Type} (step : σ → SinkOracle → StepResult σ)
    (R : σ → σ → Prop) (hrefl : ∀ s, R s s)
    (htrans : ∀ a b c, R a b → R b c → R a c)
    (hstep : ∀ s o s', (step s o).next = some s' → R s s') :
    ∀ (os : List SinkOracle) (st st' : σ),
      (drive step st os).next = some st' → R st st' := by
  intro os
  induction os with
  | nil =>
    intro st st' h
    simp only [drive, StreamPollResult.next, Option.some.injEq] at h
    exact h ▸ hrefl st
  | cons o rest ih =>
    intro st st' h
    unfold drive at h
    cases hs : step st o with
    | cont n =>
      rw [hs] at h
      exact htrans _ _ _ (hstep st o n (by simp [hs, StepResult.next])) (ih n st' h)
    | pend n =>
      rw [hs] at h
      simp only [StreamPollResult.next, Option.some.injEq] at h
      exact h ▸ hstep st o n (by simp [hs, StepResult.next])
    | yield n ev =>
      rw [hs] at h
      simp only [StreamPollResult.next, Option.some.injEq] at h
      exact h ▸ hstep st o n (by simp [hs, StepResult.next])
    | finished =>
      rw [hs] at h
      simp [StreamPollResult.next] at h

/-- Event transport along the loop driver: every event a full `poll_next`
yields was yielded by one loop iteration. -/
theorem drive_event {σ : Type} (step : σ → SinkOracle → StepResult σ)
    (P : ConnectionHandlerEvent → Prop)
    (hstep : ∀ s o ev, (step s o).event = some ev → P ev) :
    ∀ (os : List SinkOracle) (st : σ) (ev : ConnectionHandlerEvent),
      (drive step st os).event = some ev → P ev := by
  intro os
  induction os with
  | nil => intro st ev h; simp [drive, StreamPollResult.event] at h
  | cons o rest ih =>
    intro st ev h
    unfold drive at h
    cases hs : step st o with
    | cont n => rw [hs] at h; exact ih n ev h
    | pend n => rw [hs] at h; simp [StreamPollResult.event] at h
    | yield n e =>
      rw [hs] at h
      simp only [StreamPollResult.event, Option.some.injEq] at h
      exact h ▸ hstep st o e (by simp [hs, StepResult.event])
    | finished => rw [hs] at h; simp [StreamPollResult.event] at h

/-- A pool poll never grows the pool. -/
theorem poll_pool_length_le {σ : Type}
    (pollOne : σ → List SinkOracle → StreamPollResult σ) :
    ∀ (sts : List σ) (os : List (List SinkOracle)),
      (poll_pool pollOne sts os).1.length ≤ sts.length := by
  intro sts
  induction sts with
  | nil => intro os; simp [poll_pool]
  | cons st rest ih =>
    intro os
    cases os with
    | nil => simp [poll_pool]
    | cons o orest =>
      simp only [poll_pool]
      cases hp : pollOne st o with
      | pending st' =>
        cases hpp : poll_pool pollOne rest orest with
        | mk rest' ev =>
          have := ih orest
          rw [hpp] at this
          simpa using Nat.succ_le_succ this
      | yielded st' ev => simp
      | finished => exact Nat.le_succ_of_le (ih orest)

/-- Each exchange of the pool after a pool poll descends, through `pollOne`,
from an exchange of the input pool (unpolled exchanges staying as they are). -/
theorem poll_pool_mem_rel {σ : Type}
    (pollOne : σ → List SinkOracle → StreamPollResult σ)
    (R : σ → σ → Prop) (hrefl : ∀ s, R s s)
    (hone : ∀ st os st', (pollOne st os).next = some st' → R st st') :
    ∀ (sts : List σ) (os : List (List SinkOracle)) (st' : σ),
      st' ∈ (poll_pool pollOne sts os).1 → ∃ st ∈ sts, R st st' := by
  intro sts
  induction sts with
  | nil => intro os st' h; simp [poll_pool] at h
  | cons st rest ih =>
    intro os st' h
    cases os with
    | nil =>
      simp only [poll_pool] at h
      exact ⟨st', h, hrefl st'⟩
    | cons o orest =>
      simp only [poll_pool] at h
      cases hp : pollOne st o with
      | pending st₂ =>
        rw [hp] at h
        cases hpp : poll_pool pollOne rest orest with
        | mk rest' ev =>
          rw [hpp] at h
          simp only [List.mem_cons] at h
          rcases h with h | h
          · exact ⟨st, List.mem_cons_self st rest,
              h ▸ hone st o st₂ (by simp [hp, StreamPollResult.next])⟩
          · have hm : st' ∈ (poll_pool pollOne rest orest).1 := by rw [hpp]; exact h
            obtain ⟨st₃, hmem, hr⟩ := ih orest st' hm
            exact ⟨st₃, List.mem_cons_of_mem st hmem, hr⟩
      | yielded st₂ ev =>
        rw [hp] at h
        simp only [List.mem_cons] at h
        rcases h with h | h
        · exact ⟨st, List.mem_cons_self st rest,
            h ▸ hone st o st₂ (by simp [hp, StreamPollResult.next])⟩
        · exact ⟨st', List.mem_cons_of_mem st h, hrefl st'⟩
      | finished =>
        rw [hp] at h
        obtain ⟨st₃, hmem, hr⟩ := ih orest st' h
        exact ⟨st₃, List.mem_cons_of_mem st hmem, hr⟩

/-- Every event a pool poll returns was yielded by some exchange's
`poll_next`. -/
theorem poll_pool_event {σ : Type}
    (pollOne : σ → List SinkOracle → StreamPollResult σ)
    (P : ConnectionHandlerEvent → Prop)
    (hone : ∀ st os ev, (pollOne st os).event = some ev → P ev) :
    ∀ (sts : List σ) (os : List (List SinkOracle)) (ev : ConnectionHandlerEvent),
      (poll_pool pollOne sts os).2 = some ev → P ev := by
  intro sts
  induction sts with
  | nil => intro os ev h; simp [poll_pool] at h
  | cons st rest ih =>
    intro os ev h
    cases os with
    | nil => simp [poll_pool] at h
    | cons o orest =>
      simp only [poll_pool] at h
      cases hp : pollOne st o with
      | pending st₂ =>
        rw [hp] at h
        cases hpp : poll_pool pollOne rest orest with
        | mk rest' ev' =>
          rw [hpp] at h
          simp only at h
          exact ih orest ev (by rw [hpp]; exact h)
      | yielded st₂ e =>
        rw [hp] at h
        simp only [Option.some.injEq] at h
        exact h ▸ hone st o e (by simp [hp, StreamPollResult.event])
      | finished =>
        rw [hp] at h
        exact ih orest ev h

/-- A full `poll_next` call preserves an inbound exchange's stamp or drops it. -/
theorem inbound_poll_next_stamp (st : InboundSubstreamState) (os : List SinkOracle)
    (st' : InboundSubstreamState) (h : (inbound_poll_next st os).next = some st') :
    inbound_stamp st' = inbound_stamp st ∨ inbound_stamp st' = none := by
  refine drive_rel inbound_step
    (fun a b => inbound_stamp b = inbound_stamp a ∨ inbound_stamp b = none)
    (fun s => Or.inl rfl) ?_ inbound_step_next_stamp os st st' h
  intro a b c hab hbc
  rcases hbc with h1 | h1
  · rcases hab with h2 | h2
    · exact Or.inl (h1.trans h2)
    · exact Or.inr (h1.trans h2)
  · exact Or.inr h1

/-- A pool poll of the inbound pool only removes or keeps stamps: the stamps
afterwards are a sublist of the stamps before. -/
theorem inbound_pool_stamps_sublist :
    ∀ (sts : List InboundSubstreamState) (os : List (List SinkOracle)),
      (inbound_stamps (poll_pool inbound_poll_next sts os).1).Sublist
        (inbound_stamps sts) := by
  intro sts
  induction sts with
  | nil => intro os; simp [poll_pool]
  | cons st rest ih =>
    intro os
    cases os with
    | nil => simp [poll_pool]
    | cons o orest =>
      simp only [poll_pool]
      cases hp : inbound_poll_next st o with
      | pending st' =>
        cases hpp : poll_pool inbound_poll_next rest orest with
        | mk rest' ev =>
          simp only
          have hst := inbound_poll_next_stamp st o st'
            (by simp [hp, StreamPollResult.next])
          have hrest : (inbound_stamps rest').Sublist (inbound_stamps rest) := by
            have := ih orest
            rw [hpp] at this
            exact this
          rcases hst with he | hn
          · cases hc : inbound_stamp st with
            | none =>
              rw [hc] at he
              simp only [inbound_stamps, List.filterMap_cons, he, hc]
              exact hrest
            | some c =>
              rw [hc] at he
              simp only [inbound_stamps, List.filterMap_cons, he, hc]
              exact hrest.cons₂ c
          · cases hc : inbound_stamp st with
            | none =>
              simp only [inbound_stamps, List.filterMap_cons, hn, hc]
              exact hrest
            | some c =>
              simp only [inbound_stamps, List.filterMap_cons, hn, hc]
              exact hrest.cons c
      | yielded st' ev =>
        have hst := inbound_poll_next_stamp st o st'
          (by simp [hp, StreamPollResult.next])
        rcases hst with he | hn
        · cases hc : inbound_stamp st with
          | none =>
            rw [hc] at he
            simp only [inbound_stamps, List.filterMap_cons, he, hc]
            exact List.Sublist.refl _
          | some c =>
            rw [hc] at he
            simp only [inbound_stamps, List.filterMap_cons, he, hc]
            exact (List.Sublist.refl _).cons₂ c
        · cases hc : inbound_stamp st with
          | none =>
            simp only [inbound_stamps, List.filterMap_cons, hn, hc]
            exact List.Sublist.refl _
          | some c =>
            simp only [inbound_stamps, List.filterMap_cons, hn, hc]
            exact (List.Sublist.refl _).cons c
      | finished =>
        refine (ih orest).trans ?_
        cases hc : inbound_stamp st with
        | none => simp [inbound_stamps, List.filterMap_cons, hc]
        | some c =>
          simp only [inbound_stamps, List.filterMap_cons, hc]
          exact (List.Sublist.refl _).cons c

/-- Whether an inbound exchange is in `WaitingBehaviour` with the stamp of the
given request id (the acceptance condition of `try_answer_with` and the search
condition of the `Reset` arm). -/
def waiting_with_id (rid : RequestId) : InboundSubstreamState → Bool
  | .WaitingBehaviour c _ _ => c == rid.connec_unique_id
  | _ => false

/-- Whether an inbound exchange is an idle reused substream, the eviction
candidate of handler.rs:560-567. -/
def reusable : InboundSubstreamState → Bool
  | .WaitingMessage false _ _ => true
  | _ => false

/-- A refusing `try_answer_with` restores the exchange exactly and wakes
nothing. -/
theorem try_answer_refuse (st : InboundSubstreamState) (rid : RequestId)
    (msg : KadResponseMsg) (h : waiting_with_id rid st = false) :
    st.try_answer_with rid msg =
      { state := st, accepted := false, woken := none } := by
  cases st <;> simp_all [InboundSubstreamState.try_answer_with, waiting_with_id]

/-- `try_answer_with` accepts exactly when the exchange is in
`WaitingBehaviour` with the request's stamp. -/
theorem try_answer_accepted_iff (st : InboundSubstreamState) (rid : RequestId)
    (msg : KadResponseMsg) :
    (st.try_answer_with rid msg).accepted = waiting_with_id rid st := by
  cases st <;> simp [InboundSubstreamState.try_answer_with, waiting_with_id] <;> split <;>
    simp_all

/-- `try_answer_with` preserves the exchange's stamp. -/
theorem try_answer_stamp (st : InboundSubstreamState) (rid : RequestId)
    (msg : KadResponseMsg) :
    inbound_stamp (st.try_answer_with rid msg).state = inbound_stamp st := by
  cases st <;> simp only [InboundSubstreamState.try_answer_with] <;>
    (try split) <;> simp [inbound_stamp]

/-- `try_answer_with` never produces `Poisoned` from a non-poisoned state. -/
theorem try_answer_poison (st : InboundSubstreamState) (rid : RequestId)
    (msg : KadResponseMsg) (h : st ≠ InboundSubstreamState.Poisoned) :
    (st.try_answer_with rid msg).state ≠ InboundSubstreamState.Poisoned := by
  cases st <;>
    first
      | exact absurd rfl h
      | (simp only [InboundSubstreamState.try_answer_with]
         (try split) <;> simp)

/-- When no exchange of the pool accepts, the sweep returns the pool unchanged
and the closing `debug_assert!` fires. -/
theorem answer_sweep_none (rid : RequestId) (msg : KadResponseMsg) :
    ∀ pool, (∀ st ∈ pool, waiting_with_id rid st = false) →
      answer_sweep rid msg pool = (pool, true, none) := by
  intro pool
  induction pool with
  | nil => intro _; rfl
  | cons st rest ih =>
    intro hall
    have hst : waiting_with_id rid st = false := hall st (List.mem_cons_self st rest)
    have hr := try_answer_refuse st rid msg hst
    simp only [answer_sweep, hr]
    rw [ih (fun st₂ hm => hall st₂ (List.mem_cons_of_mem st hm))]
    simp

/-- The sweep answers exactly the first exchange in `WaitingBehaviour` with
the request's stamp: it becomes `PendingSend` carrying the message, its stored
waker is the one woken, and every other exchange is unchanged. -/
theorem answer_sweep_first (rid : RequestId) (msg : KadResponseMsg) :
    ∀ (l₁ : List InboundSubstreamState) (s : Substream) (w : Option Waker)
      (l₂ : List InboundSubstreamState),
      (∀ st ∈ l₁, waiting_with_id rid st = false) →
      answer_sweep rid msg
          (l₁ ++ InboundSubstreamState.WaitingBehaviour rid.connec_unique_id s w :: l₂) =
        (l₁ ++ InboundSubstreamState.PendingSend rid.connec_unique_id s msg :: l₂,
          false, w) := by
  intro l₁
  induction l₁ with
  | nil =>
    intro s w l₂ _
    simp [answer_sweep, InboundSubstreamState.try_answer_with]
  | cons st rest ih =>
    intro s w l₂ hall
    have hst : waiting_with_id rid st = false := hall st (List.mem_cons_self st rest)
    have hr := try_answer_refuse st rid msg hst
    simp only [List.cons_append, answer_sweep, hr, List.append_eq]
    rw [ih s w l₂ (fun st₂ hm => hall st₂ (List.mem_cons_of_mem st hm))]
    simp

/-- When the sweep's `debug_assert!` fires, the pool is returned unchanged. -/
theorem answer_sweep_fired (rid : RequestId) (msg : KadResponseMsg) :
    ∀ pool, (answer_sweep rid msg pool).2.1 = true →
      (answer_sweep rid msg pool).1 = pool := by
  intro pool
  induction pool with
  | nil => intro _; rfl
  | cons st rest ih =>
    intro hfired
    simp only [answer_sweep] at hfired ⊢
    by_cases hacc : (st.try_answer_with rid msg).accepted = true
    · rw [if_pos hacc] at hfired
      simp at hfired
    · rw [if_neg hacc] at hfired ⊢
      simp only at hfired ⊢
      have hw : waiting_with_id rid st = false := by
        rw [← try_answer_accepted_iff st rid msg]
        simpa using hacc
      rw [try_answer_refuse st rid msg hw, ih hfired]

/-- The sweep preserves the pool's stamps exactly. -/
theorem answer_sweep_stamps (rid : RequestId) (msg : KadResponseMsg) :
    ∀ pool, inbound_stamps (answer_sweep rid msg pool).1 = inbound_stamps pool := by
  intro pool
  induction pool with
  | nil => rfl
  | cons st rest ih =>
    simp only [answer_sweep]
    by_cases hacc : (st.try_answer_with rid msg).accepted = true
    · rw [if_pos hacc]
      simp only [inbound_stamps, List.filterMap_cons, try_answer_stamp]
    · rw [if_neg hacc]
      cases hsw : answer_sweep rid msg rest with
      | mk rest' pr =>
        rw [hsw] at ih
        simp only [inbound_stamps, List.filterMap_cons, try_answer_stamp]
        simp only [inbound_stamps] at ih
        cases hc : inbound_stamp st with
        | none => simpa [hc] using ih
        | some c => simp only [hc]; rw [ih]

/-- The sweep introduces no `Poisoned` state. -/
theorem answer_sweep_poison (rid : RequestId) (msg : KadResponseMsg) :
    ∀ pool, InboundSubstreamState.Poisoned ∉ pool →
      InboundSubstreamState.Poisoned ∉ (answer_sweep rid msg pool).1 := by
  intro pool
  induction pool with
  | nil => intro h; simp [answer_sweep]
  | cons st rest ih =>
    intro h
    have hst : st ≠ InboundSubstreamState.Poisoned := by
      intro he; exact h (he ▸ List.mem_cons_self st rest)
    have hrest : InboundSubstreamState.Poisoned ∉ rest := by
      intro hm; exact h (List.mem_cons_of_mem st hm)
    simp only [answer_sweep]
    by_cases hacc : (st.try_answer_with rid msg).accepted = true
    · rw [if_pos hacc]
      intro hm
      rcases List.mem_cons.mp hm with hm | hm
      · exact try_answer_poison st rid msg hst hm.symm
      · exact hrest hm
    · rw [if_neg hacc]
      cases hsw : answer_sweep rid msg rest with
      | mk rest' pr =>
        intro hm
        rcases List.mem_cons.mp hm with hm | hm
        · exact try_answer_poison st rid msg hst hm.symm
        · have h2 := ih hrest
          rw [hsw] at h2
          exact h2 hm

/-- A `Reset` that matches no exchange is a no-op on the pool. -/
theorem reset_close_none (rid : RequestId) :
    ∀ pool, (∀ st ∈ pool, waiting_with_id rid st = false) →
      reset_close rid pool = pool := by
  intro pool
  induction pool with
  | nil => intro _; rfl
  | cons st rest ih =>
    intro hall
    have hst : waiting_with_id rid st = false := hall st (List.mem_cons_self st rest)
    have hrest := ih (fun st₂ hm => hall st₂ (List.mem_cons_of_mem st hm))
    cases st <;> simp_all [reset_close, waiting_with_id]

/-- A `Reset` closes exactly the first matching `WaitingBehaviour` exchange,
preserving its substream, and leaves every other exchange unchanged. -/
theorem reset_close_first (rid : RequestId) :
    ∀ (l₁ : List InboundSubstreamState) (s : Substream) (w : Option Waker)
      (l₂ : List InboundSubstreamState),
      (∀ st ∈ l₁, waiting_with_id rid st = false) →
      reset_close rid
          (l₁ ++ InboundSubstreamState.WaitingBehaviour rid.connec_unique_id s w :: l₂) =
        l₁ ++ InboundSubstreamState.Closing s :: l₂ := by
  intro l₁
  induction l₁ with
  | nil =>
    intro s w l₂ _
    simp [reset_close, InboundSubstreamState.close]
  | cons st rest ih =>
    intro s w l₂ hall
    have hst : waiting_with_id rid st = false := hall st (List.mem_cons_self st rest)
    have hrest := ih s w l₂ (fun st₂ hm => hall st₂ (List.mem_cons_of_mem st hm))
    cases st <;> simp_all [reset_close, waiting_with_id]

/-- `reset_close` only removes-or-keeps stamps. -/
theorem reset_close_stamps (rid : RequestId) :
    ∀ pool, (inbound_stamps (reset_close rid pool)).Sublist (inbound_stamps pool) := by
  intro pool
  induction pool with
  | nil => simp [reset_close]
  | cons st rest ih =>
    cases st with
    | WaitingBehaviour c s w =>
      by_cases hc : c = rid.connec_unique_id
      · simp only [reset_close, if_pos hc, InboundSubstreamState.close]
        simp only [inbound_stamps, List.filterMap_cons, inbound_stamp]
        exact (List.Sublist.refl _).cons c
      · simp only [reset_close, if_neg hc]
        simp only [inbound_stamps, List.filterMap_cons, inbound_stamp]
        exact ih.cons₂ c
    | WaitingMessage first c s =>
      simp only [reset_close, inbound_stamps, List.filterMap_cons, inbound_stamp]
      exact ih.cons₂ c
    | PendingSend c s msg =>
      simp only [reset_close, inbound_stamps, List.filterMap_cons, inbound_stamp]
      exact ih.cons₂ c
    | PendingFlush c s =>
      simp only [reset_close, inbound_stamps, List.filterMap_cons, inbound_stamp]
      exact ih.cons₂ c
    | Closing s =>
      simp only [reset_close, inbound_stamps, List.filterMap_cons, inbound_stamp]
      exact ih
    | Cancelled =>
      simp only [reset_close, inbound_stamps, List.filterMap_cons, inbound_stamp]
      exact ih
    | Poisoned =>
      simp only [reset_close, inbound_stamps, List.filterMap_cons, inbound_stamp]
      exact ih

/-- `reset_close` introduces no `Poisoned` state. -/
theorem reset_close_poison (rid : RequestId) :
    ∀ pool, InboundSubstreamState.Poisoned ∉ pool →
      InboundSubstreamState.Poisoned ∉ reset_close rid pool := by
  intro pool
  induction pool with
  | nil => intro h; simpa [reset_close] using h
  | cons st rest ih =>
    intro h
    have hst : st ≠ InboundSubstreamState.Poisoned := by
      intro he; exact h (he ▸ List.mem_cons_self st rest)
    have hrest : InboundSubstreamState.Poisoned ∉ rest := by
      intro hm; exact h (List.mem_cons_of_mem st hm)
    have hr := ih hrest
    cases st <;> simp_all [reset_close, InboundSubstreamState.close] <;>
      split <;> simp_all [InboundSubstreamState.close]

/-- When no exchange of the pool is reusable, the eviction search fails. -/
theorem cancel_first_reusable_none :
    ∀ pool, (∀ st ∈ pool, reusable st = false) →
      cancel_first_reusable pool = none := by
  intro pool
  induction pool with
  | nil => intro _; rfl
  | cons st rest ih =>
    intro hall
    have hst : reusable st = false := hall st (List.mem_cons_self st rest)
    have hrest := ih (fun st₂ hm => hall st₂ (List.mem_cons_of_mem st hm))
    cases st with
    | WaitingMessage first c s =>
      cases first <;> simp_all [cancel_first_reusable, reusable]
    | _ => simp_all [cancel_first_reusable]

/-- The eviction search cancels exactly the first reusable exchange. -/
theorem cancel_first_reusable_first :
    ∀ (l₁ : List InboundSubstreamState) (c : UniqueConnecId) (s : Substream)
      (l₂ : List InboundSubstreamState),
      (∀ st ∈ l₁, reusable st = false) →
      cancel_first_reusable
          (l₁ ++ InboundSubstreamState.WaitingMessage false c s :: l₂) =
        some (l₁ ++ InboundSubstreamState.Cancelled :: l₂) := by
  intro l₁
  induction l₁ with
  | nil => intro c s l₂ _; rfl
  | cons st rest ih =>
    intro c s l₂ hall
    have hst : reusable st = false := hall st (List.mem_cons_self st rest)
    have hrest := ih c s l₂ (fun st₂ hm => hall st₂ (List.mem_cons_of_mem st hm))
    cases st with
    | WaitingMessage first c₂ s₂ =>
      cases first <;> simp_all [cancel_first_reusable, reusable]
    | _ => simp_all [cancel_first_reusable]

/-- A successful eviction search only removes-or-keeps stamps. -/
theorem cancel_first_reusable_stamps :
    ∀ pool pool', cancel_first_reusable pool = some pool' →
      (inbound_stamps pool').Sublist (inbound_stamps pool) := by
  intro pool
  induction pool with
  | nil => intro pool' h; simp [cancel_first_reusable] at h
  | cons st rest ih =>
    intro pool' h
    cases st with
    | WaitingMessage first c s =>
      cases first with
      | false =>
        simp only [cancel_first_reusable, Option.some.injEq] at h
        subst h
        simp only [inbound_stamps, List.filterMap_cons, inbound_stamp]
        exact (List.Sublist.refl _).cons c
      | true =>
        simp only [cancel_first_reusable, Option.map_eq_some'] at h
        obtain ⟨rest', hrest, hp⟩ := h
        subst hp
        simp only [inbound_stamps, List.filterMap_cons, inbound_stamp]
        exact (ih rest' hrest).cons₂ c
    | WaitingBehaviour c s w =>
      simp only [cancel_first_reusable, Option.map_eq_some'] at h
      obtain ⟨rest', hrest, hp⟩ := h
      subst hp
      simp only [inbound_stamps, List.filterMap_cons, inbound_stamp]
      exact (ih rest' hrest).cons₂ c
    | PendingSend c s msg =>
      simp only [cancel_first_reusable, Option.map_eq_some'] at h
      obtain ⟨rest', hrest, hp⟩ := h
      subst hp
      simp only [inbound_stamps, List.filterMap_cons, inbound_stamp]
      exact (ih rest' hrest).cons₂ c
    | PendingFlush c s =>
      simp only [cancel_first_reusable, Option.map_eq_some'] at h
      obtain ⟨rest', hrest, hp⟩ := h
      subst hp
      simp only [inbound_stamps, List.filterMap_cons, inbound_stamp]
      exact (ih rest' hrest).cons₂ c
    | Closing s =>
      simp only [cancel_first_reusable, Option.map_eq_some'] at h
      obtain ⟨rest', hrest, hp⟩ := h
      subst hp
      simp only [inbound_stamps, List.filterMap_cons, inbound_stamp]
      exact ih rest' hrest
    | Cancelled =>
      simp only [cancel_first_reusable, Option.map_eq_some'] at h
      obtain ⟨rest', hrest, hp⟩ := h
      subst hp
      simp only [inbound_stamps, List.filterMap_cons, inbound_stamp]
      exact ih rest' hrest
    | Poisoned =>
      simp only [cancel_first_reusable, Option.map_eq_some'] at h
      obtain ⟨rest', hrest, hp⟩ := h
      subst hp
      simp only [inbound_stamps, List.filterMap_cons, inbound_stamp]
      exact ih rest' hrest

/-- A successful eviction search introduces no `Poisoned` state. -/
theorem cancel_first_reusable_poison :
    ∀ pool pool', cancel_first_reusable pool = some pool' →
      InboundSubstreamState.Poisoned ∉ pool →
      InboundSubstreamState.Poisoned ∉ pool' := by
  intro pool
  induction pool with
  | nil => intro pool' h _; simp [cancel_first_reusable] at h
  | cons st rest ih =>
    intro pool' h hnp
    have hst : st ≠ InboundSubstreamState.Poisoned := by
      intro he; exact hnp (he ▸ List.mem_cons_self st rest)
    have hrest : InboundSubstreamState.Poisoned ∉ rest := by
      intro hm; exact hnp (List.mem_cons_of_mem st hm)
    by_cases hre : reusable st = true
    · have : ∃ c s, st = InboundSubstreamState.WaitingMessage false c s := by
        cases st <;> simp_all [reusable]
        rename_i first c s
        cases first <;> simp_all
      obtain ⟨c, s, hs⟩ := this
      subst hs
      simp only [cancel_first_reusable, Option.some.injEq] at h
      subst h
      intro hm
      rcases List.mem_cons.mp hm with hm | hm
      · exact absurd hm.symm (by simp)
      · exact hrest hm
    · have hmap : cancel_first_reusable (st :: rest) =
          (cancel_first_reusable rest).map (st :: ·) := by
        cases st with
        | WaitingMessage first c s =>
          cases first <;> simp_all [cancel_first_reusable, reusable]
        | _ => simp [cancel_first_reusable]
      rw [hmap, Option.map_eq_some'] at h
      obtain ⟨rest', hr, hp⟩ := h
      subst hp
      intro hm
      rcases List.mem_cons.mp hm with hm | hm
      · exact hst hm.symm
      · exact ih rest' hr hrest hm

/-- The handler's internal invariant, maintained by every reachable state:
the outbound bound, the ghost synchronisation with the connection layer, the
request-counter/queue relation, freshness and uniqueness of inbound stamps,
and absence of the `Poisoned` sentinels from the pools. -/
structure Inv (h : Handler) : Prop where
  bound : h.outbound_substreams.length + h.num_requested_outbound_streams ≤
    MAX_NUM_SUBSTREAMS
  envSync : h.num_requested_outbound_streams = h.env_pending_negotiations
  reqLe : h.num_requested_outbound_streams ≤ h.pending_messages.length
  stampsLt : ∀ c ∈ inbound_stamps h.inbound_substreams, c < h.next_connec_unique_id
  stampsNodup : (inbound_stamps h.inbound_substreams).Nodup
  noPoisonOut : OutboundSubstreamState.Poisoned ∉ h.outbound_substreams
  noPoisonIn : InboundSubstreamState.Poisoned ∉ h.inbound_substreams

/-- A full outbound `poll_next` keeps a non-poisoned exchange non-poisoned. -/
theorem outbound_poll_next_poison (st : OutboundSubstreamState) (os : List SinkOracle)
    (st' : OutboundSubstreamState) (h : (outbound_poll_next st os).next = some st')
    (hp : st ≠ OutboundSubstreamState.Poisoned) :
    st' ≠ OutboundSubstreamState.Poisoned :=
  drive_rel outbound_step
    (fun a b => a ≠ OutboundSubstreamState.Poisoned → b ≠ OutboundSubstreamState.Poisoned)
    (fun _ hs => hs) (fun _ _ _ hab hbc ha => hbc (hab ha))
    (fun s o s' hn _ => outbound_step_next_ne_poisoned s o s' hn) os st st' h hp

/-- A full inbound `poll_next` keeps a non-poisoned exchange non-poisoned. -/
theorem inbound_poll_next_poison (st : InboundSubstreamState) (os : List SinkOracle)
    (st' : InboundSubstreamState) (h : (inbound_poll_next st os).next = some st')
    (hp : st ≠ InboundSubstreamState.Poisoned) :
    st' ≠ InboundSubstreamState.Poisoned :=
  drive_rel inbound_step
    (fun a b => a ≠ InboundSubstreamState.Poisoned → b ≠ InboundSubstreamState.Poisoned)
    (fun _ hs => hs) (fun _ _ _ hab hbc ha => hbc (hab ha))
    (fun s o s' hn _ => inbound_step_next_ne_poisoned s o s' hn) os st st' h hp

/-- A pool poll of the outbound pool introduces no `Poisoned`. -/
theorem outbound_pool_poison (sts : List OutboundSubstreamState)
    (os : List (List SinkOracle)) (h : OutboundSubstreamState.Poisoned ∉ sts) :
    OutboundSubstreamState.Poisoned ∉ (poll_pool outbound_poll_next sts os).1 := by
  intro hm
  obtain ⟨st, hmem, hr⟩ := poll_pool_mem_rel outbound_poll_next
    (fun a b => a ≠ OutboundSubstreamState.Poisoned → b ≠ OutboundSubstreamState.Poisoned)
    (fun _ hs => hs) (fun st' os' st₂ hn => outbound_poll_next_poison st' os' st₂ hn)
    sts os _ hm
  exact hr (fun he => h (he ▸ hmem)) rfl

/-- A pool poll of the inbound pool introduces no `Poisoned`. -/
theorem inbound_pool_poison (sts : List InboundSubstreamState)
    (os : List (List SinkOracle)) (h : InboundSubstreamState.Poisoned ∉ sts) :
    InboundSubstreamState.Poisoned ∉ (poll_pool inbound_poll_next sts os).1 := by
  intro hm
  obtain ⟨st, hmem, hr⟩ := poll_pool_mem_rel inbound_poll_next
    (fun a b => a ≠ InboundSubstreamState.Poisoned → b ≠ InboundSubstreamState.Poisoned)
    (fun _ hs => hs) (fun st' os' st₂ hn => inbound_poll_next_poison st' os' st₂ hn)
    sts os _ hm
  exact hr (fun he => h (he ▸ hmem)) rfl

/-- Everything `Handler::poll_pools` does: the pools are polled (the outbound
pool shrinking, the inbound stamps forming a sublist, no `Poisoned`
introduced) and every other field is untouched. -/
theorem poll_pools_spec (h : Handler) (inp : PollInputs) :
    ∃ outPool inPool ev,
      h.poll_pools inp =
        ({ h with outbound_substreams := outPool, inbound_substreams := inPool }, ev) ∧
      outPool.length ≤ h.outbound_substreams.length ∧
      (inbound_stamps inPool).Sublist (inbound_stamps h.inbound_substreams) ∧
      (OutboundSubstreamState.Poisoned ∉ h.outbound_substreams →
        OutboundSubstreamState.Poisoned ∉ outPool) ∧
      (InboundSubstreamState.Poisoned ∉ h.inbound_substreams →
        InboundSubstreamState.Poisoned ∉ inPool) := by
  unfold Handler.poll_pools
  cases hpo : poll_pool outbound_poll_next h.outbound_substreams inp.outOracles with
  | mk outPool outEv =>
    have hlen : outPool.length ≤ h.outbound_substreams.length := by
      have := poll_pool_length_le outbound_poll_next h.outbound_substreams inp.outOracles
      rw [hpo] at this
      exact this
    have hpoisOut : OutboundSubstreamState.Poisoned ∉ h.outbound_substreams →
        OutboundSubstreamState.Poisoned ∉ outPool := by
      intro hnp
      have := outbound_pool_poison h.outbound_substreams inp.outOracles hnp
      rw [hpo] at this
      exact this
    cases outEv with
    | some ev =>
      refine ⟨outPool, h.inbound_substreams, some ev, ?_, hlen,
        List.Sublist.refl _, hpoisOut, fun hnp => hnp⟩
      simp only [hpo]
    | none =>
      cases hpi : poll_pool inbound_poll_next h.inbound_substreams inp.inOracles with
      | mk inPool inEv =>
        have hsub : (inbound_stamps inPool).Sublist
            (inbound_stamps h.inbound_substreams) := by
          have := inbound_pool_stamps_sublist h.inbound_substreams inp.inOracles
          rw [hpi] at this
          exact this
        have hpoisIn : InboundSubstreamState.Poisoned ∉ h.inbound_substreams →
            InboundSubstreamState.Poisoned ∉ inPool := by
          intro hnp
          have := inbound_pool_poison h.inbound_substreams inp.inOracles hnp
          rw [hpi] at this
          exact this
        refine ⟨outPool, inPool, inEv, ?_, hlen, hsub, hpoisOut, hpoisIn⟩
        simp only [hpo, hpi]

/-- Admitting an inbound exchange appends its stamp. -/
theorem inbound_stamps_append_new (l : List InboundSubstreamState)
    (c : UniqueConnecId) (s : Substream) :
    inbound_stamps (l ++ [InboundSubstreamState.WaitingMessage true c s]) =
      inbound_stamps l ++ [c] := by
  simp [inbound_stamps, List.filterMap_append, inbound_stamp]

/-- Stages 4-5 of `poll` preserve the invariant. -/
theorem inv_poll_tail (h : Handler) (now : Nat) (hinv : Inv h) :
    Inv (h.poll_tail now).1 := by
  unfold Handler.poll_tail
  split
  · rename_i hguard
    obtain ⟨h1, h2⟩ := hguard
    refine ⟨?_, ?_, ?_, hinv.stampsLt, hinv.stampsNodup, hinv.noPoisonOut,
      hinv.noPoisonIn⟩
    · dsimp only
      simp only [MAX_NUM_SUBSTREAMS] at h1 ⊢
      omega
    · have := hinv.envSync
      dsimp only
      omega
    · dsimp only
      omega
  · exact ⟨hinv.bound, hinv.envSync, hinv.reqLe, hinv.stampsLt, hinv.stampsNodup,
      hinv.noPoisonOut, hinv.noPoisonIn⟩

/-- Stages 2-5 of `poll` preserve the invariant. -/
theorem inv_poll_rest (h : Handler) (inp : PollInputs) (hinv : Inv h) :
    Inv (h.poll_rest inp).1 := by
  obtain ⟨outPool, inPool, ev, heq, hlen, hsub, hpo, hpi⟩ := poll_pools_spec h inp
  have hinv2 :
      Inv { h with outbound_substreams := outPool, inbound_substreams := inPool } :=
    ⟨le_trans (Nat.add_le_add_right hlen _) hinv.bound, hinv.envSync, hinv.reqLe,
      fun c hc => hinv.stampsLt c (hsub.subset hc), hsub.nodup hinv.stampsNodup,
      hpo hinv.noPoisonOut, hpi hinv.noPoisonIn⟩
  unfold Handler.poll_rest
  rw [heq]
  cases ev with
  | some e => exact hinv2
  | none => exact inv_poll_tail _ inp.now hinv2

/-- `poll` preserves the invariant. -/
theorem inv_poll (h : Handler) (inp : PollInputs) (hinv : Inv h) :
    Inv (h.poll inp).1 := by
  unfold Handler.poll
  cases hst : h.protocol_status with
  | none => exact inv_poll_rest h inp hinv
  | some status =>
    by_cases hrep : status.reported = true
    · simp only [if_pos hrep]
      exact inv_poll_rest h inp hinv
    · simp only [if_neg hrep]
      exact ⟨hinv.bound, hinv.envSync, hinv.reqLe, hinv.stampsLt, hinv.stampsNodup,
        hinv.noPoisonOut, hinv.noPoisonIn⟩

/-- `answer_pending_request` preserves the invariant. -/
theorem inv_answer (h : Handler) (rid : RequestId) (msg : KadResponseMsg)
    (hinv : Inv h) : Inv (h.answer_pending_request rid msg).1 := by
  unfold Handler.answer_pending_request
  cases hsw : answer_sweep rid msg h.inbound_substreams with
  | mk pool' pr =>
    have hstamps : inbound_stamps pool' = inbound_stamps h.inbound_substreams := by
      have := answer_sweep_stamps rid msg h.inbound_substreams
      rw [hsw] at this
      exact this
    have hpois : InboundSubstreamState.Poisoned ∉ pool' := by
      have := answer_sweep_poison rid msg h.inbound_substreams hinv.noPoisonIn
      rw [hsw] at this
      exact this
    exact ⟨hinv.bound, hinv.envSync, hinv.reqLe,
      fun c hc => hinv.stampsLt c (hstamps ▸ hc), hstamps ▸ hinv.stampsNodup,
      hinv.noPoisonOut, hpois⟩

/-- Behaviour commands preserve the invariant. -/
theorem inv_behaviour (h : Handler) (message : HandlerIn) (hinv : Inv h) :
    Inv (h.on_behaviour_event message).1 := by
  cases message with
  | Reset rid =>
    exact ⟨hinv.bound, hinv.envSync, hinv.reqLe,
      fun c hc => hinv.stampsLt c ((reset_close_stamps rid h.inbound_substreams).subset hc),
      (reset_close_stamps rid h.inbound_substreams).nodup hinv.stampsNodup,
      hinv.noPoisonOut, reset_close_poison rid h.inbound_substreams hinv.noPoisonIn⟩
  | ReconfigureMode m =>
    exact ⟨hinv.bound, hinv.envSync, hinv.reqLe, hinv.stampsLt, hinv.stampsNodup,
      hinv.noPoisonOut, hinv.noPoisonIn⟩
  | FindNodeReq key qid =>
    refine ⟨hinv.bound, hinv.envSync, ?_, hinv.stampsLt, hinv.stampsNodup,
      hinv.noPoisonOut, hinv.noPoisonIn⟩
    have := hinv.reqLe
    simp only [Handler.on_behaviour_event, List.length_append, List.length_cons,
      List.length_nil]
    omega
  | GetProvidersReq key qid =>
    refine ⟨hinv.bound, hinv.envSync, ?_, hinv.stampsLt, hinv.stampsNodup,
      hinv.noPoisonOut, hinv.noPoisonIn⟩
    have := hinv.reqLe
    simp only [Handler.on_behaviour_event, List.length_append, List.length_cons,
      List.length_nil]
    omega
  | AddProvider key provider =>
    refine ⟨hinv.bound, hinv.envSync, ?_, hinv.stampsLt, hinv.stampsNodup,
      hinv.noPoisonOut, hinv.noPoisonIn⟩
    have := hinv.reqLe
    simp only [Handler.on_behaviour_event, List.length_append, List.length_cons,
      List.length_nil]
    omega
  | GetRecord key qid =>
    refine ⟨hinv.bound, hinv.envSync, ?_, hinv.stampsLt, hinv.stampsNodup,
      hinv.noPoisonOut, hinv.noPoisonIn⟩
    have := hinv.reqLe
    simp only [Handler.on_behaviour_event, List.length_append, List.length_cons,
      List.length_nil]
    omega
  | PutRecord record qid =>
    refine ⟨hinv.bound, hinv.envSync, ?_, hinv.stampsLt, hinv.stampsNodup,
      hinv.noPoisonOut, hinv.noPoisonIn⟩
    have := hinv.reqLe
    simp only [Handler.on_behaviour_event, List.length_append, List.length_cons,
      List.length_nil]
    omega
  | FindNodeRes cp rid => exact inv_answer h rid _ hinv
  | GetProvidersRes cp pp rid => exact inv_answer h rid _ hinv
  | GetRecordRes record cp rid => exact inv_answer h rid _ hinv
  | PutRecordRes key value rid => exact inv_answer h rid _ hinv

/-- A negotiated outbound substream preserves the invariant (under the
connection-layer contract). -/
theorem inv_fno (h : Handler) (s : Substream)
    (henv : 0 < h.env_pending_negotiations) (hinv : Inv h) :
    Inv (h.on_fully_negotiated_outbound s).1 := by
  have hreq : 0 < h.num_requested_outbound_streams := hinv.envSync ▸ henv
  unfold Handler.on_fully_negotiated_outbound
  cases hp : h.pending_messages with
  | nil =>
    exfalso
    have := hinv.reqLe
    rw [hp] at this
    simp at this
    omega
  | cons head rest =>
    cases head with
    | mk msg qid =>
      refine ⟨?_, ?_, ?_, hinv.stampsLt, hinv.stampsNodup, ?_, hinv.noPoisonIn⟩
      · have := hinv.bound
        simp only [MAX_NUM_SUBSTREAMS, List.length_append, List.length_cons,
          List.length_nil] at this ⊢
        omega
      · have := hinv.envSync
        simp only
        omega
      · have := hinv.reqLe
        rw [hp] at this
        simp only [List.length_cons] at this
        simp only
        omega
      · intro hm
        rcases List.mem_append.mp hm with hm | hm
        · exact hinv.noPoisonOut hm
        · simp at hm

/-- A failed outbound negotiation preserves the invariant (under the
connection-layer contract). -/
theorem inv_due (h : Handler) (e : UpgradeError)
    (henv : 0 < h.env_pending_negotiations) (hinv : Inv h) :
    Inv (h.on_dial_upgrade_error e).1 := by
  have hreq : 0 < h.num_requested_outbound_streams := hinv.envSync ▸ henv
  unfold Handler.on_dial_upgrade_error
  cases hp : h.pending_messages with
  | nil =>
    exfalso
    have := hinv.reqLe
    rw [hp] at this
    simp at this
    omega
  | cons head rest =>
    cases head with
    | mk msg qid =>
      cases qid with
      | none =>
        refine ⟨?_, ?_, ?_, hinv.stampsLt, hinv.stampsNodup, hinv.noPoisonOut,
          hinv.noPoisonIn⟩
        · have := hinv.bound
          simp only [MAX_NUM_SUBSTREAMS] at this ⊢
          omega
        · have := hinv.envSync
          simp only
          omega
        · have := hinv.reqLe
          rw [hp] at this
          simp only [List.length_cons] at this
          simp only
          omega
      | some qid =>
        refine ⟨?_, ?_, ?_, hinv.stampsLt, hinv.stampsNodup, ?_, hinv.noPoisonIn⟩
        · have := hinv.bound
          simp only [MAX_NUM_SUBSTREAMS, List.length_append, List.length_cons,
            List.length_nil] at this ⊢
          omega
        · have := hinv.envSync
          simp only
          omega
        · have := hinv.reqLe
          rw [hp] at this
          simp only [List.length_cons] at this
          simp only
          omega
        · intro hm
          rcases List.mem_append.mp hm with hm | hm
          · exact hinv.noPoisonOut hm
          · simp at hm

/-- A negotiated inbound substream preserves the invariant. -/
theorem inv_fni (h : Handler) (s : Substream) (hinv : Inv h) :
    Inv (h.on_fully_negotiated_inbound s) := by
  unfold Handler.on_fully_negotiated_inbound
  cases hst : h.protocol_status <;>
  · dsimp only
    split
    · cases hcan : cancel_first_reusable h.inbound_substreams with
      | none =>
        exact ⟨hinv.bound, hinv.envSync, hinv.reqLe, hinv.stampsLt,
          hinv.stampsNodup, hinv.noPoisonOut, hinv.noPoisonIn⟩
      | some pool' =>
        have hsub := cancel_first_reusable_stamps _ _ hcan
        have hpois := cancel_first_reusable_poison _ _ hcan hinv.noPoisonIn
        dsimp only
        refine ⟨hinv.bound, hinv.envSync, hinv.reqLe, ?_, ?_, hinv.noPoisonOut, ?_⟩
        · dsimp only
          intro c hc
          rw [inbound_stamps_append_new] at hc
          rcases List.mem_append.mp hc with hc | hc
          · exact Nat.lt_succ_of_lt (hinv.stampsLt c (hsub.subset hc))
          · simp only [List.mem_singleton] at hc
            exact hc ▸ Nat.lt_succ_self _
        · dsimp only
          rw [inbound_stamps_append_new]
          rw [List.nodup_append]
          refine ⟨hsub.nodup hinv.stampsNodup, List.nodup_singleton _, ?_⟩
          intro c hc hc2
          simp only [List.mem_singleton] at hc2
          subst hc2
          exact absurd (hinv.stampsLt _ (hsub.subset hc)) (Nat.lt_irrefl _)
        · dsimp only
          intro hm
          rcases List.mem_append.mp hm with hm | hm
          · exact hpois hm
          · simp at hm
    · refine ⟨hinv.bound, hinv.envSync, hinv.reqLe, ?_, ?_, hinv.noPoisonOut, ?_⟩
      · dsimp only
        intro c hc
        rw [inbound_stamps_append_new] at hc
        rcases List.mem_append.mp hc with hc | hc
        · exact Nat.lt_succ_of_lt (hinv.stampsLt c hc)
        · simp only [List.mem_singleton] at hc
          exact hc ▸ Nat.lt_succ_self _
      · dsimp only
        rw [inbound_stamps_append_new]
        rw [List.nodup_append]
        refine ⟨hinv.stampsNodup, List.nodup_singleton _, ?_⟩
        intro c hc hc2
        simp only [List.mem_singleton] at hc2
        subst hc2
        exact absurd (hinv.stampsLt _ hc) (Nat.lt_irrefl _)
      · dsimp only
        intro hm
        rcases List.mem_append.mp hm with hm | hm
        · exact hinv.noPoisonIn hm
        · simp at hm

/-- A remote-protocols change preserves the invariant. -/
theorem inv_rpc (h : Handler) (ps : List ProtocolName) (hinv : Inv h) :
    Inv (h.on_remote_protocols_change ps) := by
  unfold Handler.on_remote_protocols_change
  split
  · exact hinv
  · exact ⟨hinv.bound, hinv.envSync, hinv.reqLe, hinv.stampsLt, hinv.stampsNodup,
      hinv.noPoisonOut, hinv.noPoisonIn⟩

/-- Every reachable handler state satisfies the invariant. -/
theorem reachable_inv (h : Handler) (hr : Reachable h) : Inv h := by
  induction hr with
  | init cfg idle ep mode now =>
    exact ⟨by simp [Handler.new, MAX_NUM_SUBSTREAMS], by simp [Handler.new],
      by simp [Handler.new], by simp [Handler.new, inbound_stamps],
      by simp [Handler.new, inbound_stamps], by simp [Handler.new],
      by simp [Handler.new]⟩
  | step h inp hr hv ih =>
    cases inp with
    | behaviour m => exact inv_behaviour h m ih
    | fullyNegotiatedOutbound s => exact inv_fno h s hv ih
    | fullyNegotiatedInbound s => exact inv_fni h s ih
    | dialUpgradeError e => exact inv_due h e hv ih
    | remoteProtocolsChange ps => exact inv_rpc h ps ih
    | otherConnectionEvent => exact ih
    | poll inp2 => exact inv_poll h inp2 ih

/-- Every event `poll_pools` returns comes from an exchange and is a
`NotifyBehaviour`, never an `OutboundSubstreamRequest`. -/
theorem poll_pools_event_notify (h : Handler) (inp : PollInputs)
    (ev : ConnectionHandlerEvent) (hev : (h.poll_pools inp).2 = some ev) :
    ev ≠ ConnectionHandlerEvent.OutboundSubstreamRequest := by
  have hout : ∀ (st : OutboundSubstreamState) (os : List SinkOracle)
      (e : ConnectionHandlerEvent), (outbound_poll_next st os).event = some e →
      e ≠ ConnectionHandlerEvent.OutboundSubstreamRequest :=
    fun st os e he => drive_event outbound_step
      (fun e2 => e2 ≠ ConnectionHandlerEvent.OutboundSubstreamRequest)
      outbound_step_event_notify os st e he
  have hin : ∀ (st : InboundSubstreamState) (os : List SinkOracle)
      (e : ConnectionHandlerEvent), (inbound_poll_next st os).event = some e →
      e ≠ ConnectionHandlerEvent.OutboundSubstreamRequest :=
    fun st os e he => drive_event inbound_step
      (fun e2 => e2 ≠ ConnectionHandlerEvent.OutboundSubstreamRequest)
      inbound_step_event_notify os st e he
  unfold Handler.poll_pools at hev
  cases hpo : poll_pool outbound_poll_next h.outbound_substreams inp.outOracles with
  | mk outPool outEv =>
    rw [hpo] at hev
    dsimp only at hev
    cases outEv with
    | some e =>
      dsimp only at hev
      have he : e = ev := by simpa using hev
      have := poll_pool_event outbound_poll_next _ hout
        h.outbound_substreams inp.outOracles e (by rw [hpo])
      exact he ▸ this
    | none =>
      cases hpi : poll_pool inbound_poll_next h.inbound_substreams inp.inOracles with
      | mk inPool inEv =>
        rw [hpi] at hev
        dsimp only at hev
        exact poll_pool_event inbound_poll_next _ hin
          h.inbound_substreams inp.inOracles ev (by rw [hpi]; exact hev)

/-- Counting exchanges with a given stamp is counting the stamp. -/
theorem countP_inbound_stamp (c : UniqueConnecId) :
    ∀ pool : List InboundSubstreamState,
      pool.countP (fun st => inbound_stamp st == some c) =
        (inbound_stamps pool).count c := by
  intro pool
  induction pool with
  | nil => rfl
  | cons st rest ih =>
    cases hs : inbound_stamp st with
    | none =>
      simp only [inbound_stamps] at ih
      simp [List.countP_cons, inbound_stamps, List.filterMap_cons, hs, ih]
    | some d =>
      by_cases hd : d = c
      · subst hd
        simp only [List.countP_cons, inbound_stamps, List.filterMap_cons, hs,
          List.count_cons]
        simp only [inbound_stamps] at ih
        simp [ih]
      · simp only [List.countP_cons, inbound_stamps, List.filterMap_cons, hs,
          List.count_cons]
        simp only [inbound_stamps] at ih
        simp [ih, hd]

/-- C5: for every `now_supported` and every current status,
`compute_new_protocol_status` returns `{supported := now_supported,
reported := false}` when the current status is `None`; `{supported :=
now_supported, reported := true}` when the current status has the same
`supported`; and `{supported := now_supported, reported := false}` on a flip. -/
theorem C5_compute_new_protocol_status (now_supported : Bool) :
    compute_new_protocol_status now_supported none =
        { supported := now_supported, reported := false } ∧
      (∀ current : ProtocolStatus, current.supported = now_supported →
        compute_new_protocol_status now_supported (some current) =
          { supported := now_supported, reported := true }) ∧
      (∀ current : ProtocolStatus, current.supported ≠ now_supported →
        compute_new_protocol_status now_supported (some current) =
          { supported := now_supported, reported := false }) := by
  refine ⟨rfl, ?_, ?_⟩
  · intro current hc
    simp [compute_new_protocol_status, hc]
  · intro current hc
    have hne : ¬(now_supported = current.supported) := fun he => hc he.symm
    simp [compute_new_protocol_status, hne]

/-- Witness for C5 at a concrete status. -/
theorem C5_compute_new_protocol_status_witness :
    compute_new_protocol_status true (some { supported := true, reported := false }) =
      { supported := true, reported := true } :=
  (C5_compute_new_protocol_status true).2.1 { supported := true, reported := false } rfl

/-- C9: `process_kad_response` maps `Pong` to an `UnexpectedMessage` query
error and each other response variant to its event, copying the payload fields
and the query id verbatim. -/
theorem C9_process_kad_response (query_id : QueryId) :
    (process_kad_response KadResponseMsg.Pong query_id =
      HandlerEvent.QueryError HandlerQueryErr.UnexpectedMessage query_id) ∧
    (∀ closer_peers : List KadPeer,
      process_kad_response (KadResponseMsg.FindNode closer_peers) query_id =
        HandlerEvent.FindNodeRes closer_peers query_id) ∧
    (∀ (closer_peers provider_peers : List KadPeer),
      process_kad_response (KadResponseMsg.GetProviders closer_peers provider_peers)
          query_id =
        HandlerEvent.GetProvidersRes closer_peers provider_peers query_id) ∧
    (∀ (record : Option Record) (closer_peers : List KadPeer),
      process_kad_response (KadResponseMsg.GetValue record closer_peers) query_id =
        HandlerEvent.GetRecordRes record closer_peers query_id) ∧
    (∀ (key : RecordKey) (value : List Nat),
      process_kad_response (KadResponseMsg.PutValue key value) query_id =
        HandlerEvent.PutRecordRes key value query_id) :=
  ⟨rfl, fun _ => rfl, fun _ _ => rfl, fun _ _ => rfl, fun _ _ => rfl⟩

/-- C7: from `WaitingAnswer(s, qid)`, one read of the substream produces
exactly one of: a successful frame moves the exchange to `Closing s` and
yields the decoded event for `qid`; end-of-stream moves it to `Done` and
yields `QueryError(Io(UnexpectedEof), qid)`; a read error moves it to `Done`
and yields `QueryError(Io, qid)`. -/
theorem C7_waiting_answer (s : Substream) (qid : QueryId) (o : SinkOracle) :
    (∀ msg : KadResponseMsg,
      o.pollNextResponse = PollOf.ready (some (IoResult.ok msg)) →
      outbound_step (OutboundSubstreamState.WaitingAnswer s qid) o =
        StepResult.yield (OutboundSubstreamState.Closing s)
          (ConnectionHandlerEvent.NotifyBehaviour (process_kad_response msg qid))) ∧
    (o.pollNextResponse = PollOf.ready none →
      outbound_step (OutboundSubstreamState.WaitingAnswer s qid) o =
        StepResult.yield OutboundSubstreamState.Done
          (ConnectionHandlerEvent.NotifyBehaviour
            (HandlerEvent.QueryError (HandlerQueryErr.Io IoError.unexpectedEof) qid))) ∧
    (∀ e : IoError, o.pollNextResponse = PollOf.ready (some (IoResult.err e)) →
      outbound_step (OutboundSubstreamState.WaitingAnswer s qid) o =
        StepResult.yield OutboundSubstreamState.Done
          (ConnectionHandlerEvent.NotifyBehaviour
            (HandlerEvent.QueryError (HandlerQueryErr.Io e) qid))) := by
  refine ⟨?_, ?_, ?_⟩
  · intro msg hm
    simp [outbound_step, hm]
  · intro hm
    simp [outbound_step, hm]
  · intro e hm
    simp [outbound_step, hm]

/-- Witness for C7 at a concrete end-of-stream read. -/
theorem C7_waiting_answer_witness :
    outbound_step (OutboundSubstreamState.WaitingAnswer 0 0)
        { pollReady := PollOf.pending, startSend := IoResult.ok (),
          pollFlush := PollOf.pending, pollNextResponse := PollOf.ready none,
          pollNextRequest := PollOf.pending, pollClose := PollOf.pending,
          waker := 0 } =
      StepResult.yield OutboundSubstreamState.Done
        (ConnectionHandlerEvent.NotifyBehaviour
          (HandlerEvent.QueryError (HandlerQueryErr.Io IoError.unexpectedEof) 0)) :=
  (C7_waiting_answer 0 0 _).2.1 rfl

/-- C4: an inbound exchange accepts an answer exactly when it is in
`WaitingBehaviour` with the request's stamp; on acceptance it becomes
`PendingSend` carrying the message and its stored waker is the one woken; a
refusing exchange is left exactly as it was; the sweep consumes the message in
at most the first accepting exchange; and when no exchange accepts, the
message is dropped and the whole handler state is unchanged. -/
theorem C4_answer_pending_request (rid : RequestId) (msg : KadResponseMsg) :
    (∀ st : InboundSubstreamState, (st.try_answer_with rid msg).accepted = true ↔
      ∃ s w, st = InboundSubstreamState.WaitingBehaviour rid.connec_unique_id s w) ∧
    (∀ (s : Substream) (w : Option Waker),
      (InboundSubstreamState.WaitingBehaviour rid.connec_unique_id s w).try_answer_with
          rid msg =
        { state := InboundSubstreamState.PendingSend rid.connec_unique_id s msg,
          accepted := true, woken := w }) ∧
    (∀ st : InboundSubstreamState, waiting_with_id rid st = false →
      st.try_answer_with rid msg = { state := st, accepted := false, woken := none }) ∧
    (∀ (l₁ : List InboundSubstreamState) (s : Substream) (w : Option Waker)
      (l₂ : List InboundSubstreamState),
      (∀ st ∈ l₁, waiting_with_id rid st = false) →
      answer_sweep rid msg
          (l₁ ++ InboundSubstreamState.WaitingBehaviour rid.connec_unique_id s w :: l₂) =
        (l₁ ++ InboundSubstreamState.PendingSend rid.connec_unique_id s msg :: l₂,
          false, w)) ∧
    (∀ h : Handler, (∀ st ∈ h.inbound_substreams, waiting_with_id rid st = false) →
      h.answer_pending_request rid msg = (h, true)) := by
  refine ⟨?_, ?_, ?_, answer_sweep_first rid msg, ?_⟩
  · intro st
    rw [try_answer_accepted_iff]
    cases st <;> simp [waiting_with_id]
  · intro s w
    simp [InboundSubstreamState.try_answer_with]
  · exact fun st => try_answer_refuse st rid msg
  · intro h2 hall
    unfold Handler.answer_pending_request
    rw [answer_sweep_none rid msg h2.inbound_substreams hall]

/-- Witness for C4 at a concrete handler with an empty inbound pool. -/
theorem C4_answer_pending_request_witness :
    (Handler.new [] 0 ConnectedPoint.Dialer Mode.Server 0).answer_pending_request
        { connec_unique_id := 0 } KadResponseMsg.Pong =
      (Handler.new [] 0 ConnectedPoint.Dialer Mode.Server 0, true) :=
  (C4_answer_pending_request { connec_unique_id := 0 } KadResponseMsg.Pong).2.2.2.2 _
    (by intro st hm; simp [Handler.new] at hm)

/-- C8: a `Reset(request_id)` closes exactly the first inbound exchange in
`WaitingBehaviour` whose stamp equals the request id (preserving its
substream), every exchange at a position holding a non-matching state is left
unchanged, and the command is a no-op when no exchange matches. -/
theorem C8_reset (rid : RequestId) :
    (∀ (l₁ : List InboundSubstreamState) (s : Substream) (w : Option Waker)
      (l₂ : List InboundSubstreamState),
      (∀ st ∈ l₁, waiting_with_id rid st = false) →
      reset_close rid
          (l₁ ++ InboundSubstreamState.WaitingBehaviour rid.connec_unique_id s w :: l₂) =
        l₁ ++ InboundSubstreamState.Closing s :: l₂) ∧
    (∀ (pool : List InboundSubstreamState) (i : Nat) (st : InboundSubstreamState),
      pool[i]? = some st → waiting_with_id rid st = false →
      (reset_close rid pool)[i]? = some st) ∧
    (∀ pool : List InboundSubstreamState,
      (∀ st ∈ pool, waiting_with_id rid st = false) → reset_close rid pool = pool) ∧
    (∀ h : Handler, (∀ st ∈ h.inbound_substreams, waiting_with_id rid st = false) →
      h.on_behaviour_event (HandlerIn.Reset rid) = (h, false)) := by
  refine ⟨reset_close_first rid, ?_, reset_close_none rid, ?_⟩
  · intro pool
    induction pool with
    | nil => intro i st h _; simp at h
    | cons st₀ rest ih =>
      intro i st h hw
      cases i with
      | zero =>
        simp only [List.getElem?_cons_zero, Option.some.injEq] at h
        subst h
        cases st₀ <;> simp_all [reset_close, waiting_with_id]
      | succ i =>
        simp only [List.getElem?_cons_succ] at h
        cases st₀ with
        | WaitingBehaviour c s w =>
          by_cases hc : c = rid.connec_unique_id
          · simp only [reset_close, if_pos hc, List.getElem?_cons_succ]
            exact h
          · simp only [reset_close, if_neg hc, List.getElem?_cons_succ]
            exact ih i st h hw
        | WaitingMessage first c s =>
          simp only [reset_close, List.getElem?_cons_succ]
          exact ih i st h hw
        | PendingSend c s m =>
          simp only [reset_close, List.getElem?_cons_succ]
          exact ih i st h hw
        | PendingFlush c s =>
          simp only [reset_close, List.getElem?_cons_succ]
          exact ih i st h hw
        | Closing s =>
          simp only [reset_close, List.getElem?_cons_succ]
          exact ih i st h hw
        | Cancelled =>
          simp only [reset_close, List.getElem?_cons_succ]
          exact ih i st h hw
        | Poisoned =>
          simp only [reset_close, List.getElem?_cons_succ]
          exact ih i st h hw
  · intro h2 hall
    simp only [Handler.on_behaviour_event]
    rw [reset_close_none rid h2.inbound_substreams hall]

/-- Witness for C8 at a concrete handler with an empty inbound pool. -/
theorem C8_reset_witness :
    (Handler.new [] 0 ConnectedPoint.Dialer Mode.Server 0).on_behaviour_event
        (HandlerIn.Reset { connec_unique_id := 3 }) =
      (Handler.new [] 0 ConnectedPoint.Dialer Mode.Server 0, false) :=
  (C8_reset { connec_unique_id := 3 }).2.2.2 _ (by intro st hm; simp [Handler.new] at hm)

/-- C3: an inbound substream negotiated in Server mode while exactly 32
inbound exchanges are live either evicts exactly the first exchange in
`WaitingMessage {first := false}` (which becomes `Cancelled`) and is admitted
as `WaitingMessage {first := true}` stamped with `next_connec_unique_id`,
which is then incremented — every other exchange unchanged — or, when no such
exchange exists, is dropped with the pool and the counter unchanged. -/
theorem C3_inbound_admission (h : Handler) (s : Substream)
    (hmode : h.mode = Mode.Server)
    (hlen : h.inbound_substreams.length = MAX_NUM_SUBSTREAMS) :
    ((∀ st ∈ h.inbound_substreams, reusable st = false) →
      (h.on_fully_negotiated_inbound s).inbound_substreams = h.inbound_substreams ∧
      (h.on_fully_negotiated_inbound s).next_connec_unique_id =
        h.next_connec_unique_id) ∧
    (∀ (l₁ : List InboundSubstreamState) (c : UniqueConnecId) (sub : Substream)
      (l₂ : List InboundSubstreamState),
      h.inbound_substreams =
        l₁ ++ InboundSubstreamState.WaitingMessage false c sub :: l₂ →
      (∀ st ∈ l₁, reusable st = false) →
      (h.on_fully_negotiated_inbound s).inbound_substreams =
        (l₁ ++ InboundSubstreamState.Cancelled :: l₂) ++
          [InboundSubstreamState.WaitingMessage true h.next_connec_unique_id s] ∧
      (h.on_fully_negotiated_inbound s).next_connec_unique_id =
        h.next_connec_unique_id + 1) := by
  constructor
  · intro hall
    have hcan := cancel_first_reusable_none h.inbound_substreams hall
    unfold Handler.on_fully_negotiated_inbound
    cases hst : h.protocol_status <;>
    · dsimp only
      rw [if_pos hlen, hcan]
      exact ⟨rfl, rfl⟩
  · intro l₁ c sub l₂ hsplit hall
    have hcan := cancel_first_reusable_first l₁ c sub l₂ hall
    unfold Handler.on_fully_negotiated_inbound
    cases hst : h.protocol_status <;>
    · dsimp only
      rw [if_pos hlen, hsplit, hcan]
      exact ⟨rfl, rfl⟩

/-- Witness for C3: a full pool of non-reusable exchanges drops the 33rd
substream. -/
theorem C3_inbound_admission_witness :
    ({ Handler.new [] 0 ConnectedPoint.Dialer Mode.Server 0 with
        inbound_substreams :=
          List.replicate 32 (InboundSubstreamState.WaitingMessage true 0 0)
          }.on_fully_negotiated_inbound 7).inbound_substreams =
      List.replicate 32 (InboundSubstreamState.WaitingMessage true 0 0) ∧
    ({ Handler.new [] 0 ConnectedPoint.Dialer Mode.Server 0 with
        inbound_substreams :=
          List.replicate 32 (InboundSubstreamState.WaitingMessage true 0 0)
          }.on_fully_negotiated_inbound 7).next_connec_unique_id = 0 :=
  (C3_inbound_admission _ 7 rfl (by simp [Handler.new, MAX_NUM_SUBSTREAMS])).1
    (by
      intro st hm
      rw [List.eq_of_mem_replicate hm]
      rfl)

/-- C1: in every reachable state, the live outbound exchanges plus
`num_requested_outbound_streams` stay within `MAX_NUM_SUBSTREAMS = 32`, and a
poll emits `OutboundSubstreamRequest` (incrementing the counter by one) only
when, in the state left after polling the pools, `outbound_live +
num_requested < 32` and `num_requested < |pending_messages|`. -/
theorem C1_outbound_bound (h : Handler) (hr : Reachable h) :
    h.outbound_substreams.length + h.num_requested_outbound_streams ≤
        MAX_NUM_SUBSTREAMS ∧
    (∀ inp : PollInputs,
      (h.poll inp).2 =
          PollResult.event ConnectionHandlerEvent.OutboundSubstreamRequest →
      (h.poll_pools inp).1.outbound_substreams.length +
          (h.poll_pools inp).1.num_requested_outbound_streams <
          MAX_NUM_SUBSTREAMS ∧
        (h.poll_pools inp).1.num_requested_outbound_streams <
          (h.poll_pools inp).1.pending_messages.length ∧
        (h.poll inp).1.num_requested_outbound_streams =
          (h.poll_pools inp).1.num_requested_outbound_streams + 1) := by
  refine ⟨(reachable_inv h hr).bound, ?_⟩
  intro inp hreq
  have key : (h.poll_rest inp).2 =
      PollResult.event ConnectionHandlerEvent.OutboundSubstreamRequest →
      (h.poll_pools inp).1.outbound_substreams.length +
          (h.poll_pools inp).1.num_requested_outbound_streams < MAX_NUM_SUBSTREAMS ∧
        (h.poll_pools inp).1.num_requested_outbound_streams <
          (h.poll_pools inp).1.pending_messages.length ∧
        (h.poll_rest inp).1.num_requested_outbound_streams =
          (h.poll_pools inp).1.num_requested_outbound_streams + 1 := by
    intro hreq2
    unfold Handler.poll_rest at hreq2 ⊢
    cases hpp : h.poll_pools inp with
    | mk h2 ev =>
      rw [hpp] at hreq2
      cases ev with
      | some e =>
        exfalso
        dsimp only at hreq2
        simp only [PollResult.event.injEq] at hreq2
        exact poll_pools_event_notify h inp e (by rw [hpp]) hreq2
      | none =>
        dsimp only at hreq2 ⊢
        unfold Handler.poll_tail at hreq2 ⊢
        by_cases hg : h2.outbound_substreams.length +
            h2.num_requested_outbound_streams < MAX_NUM_SUBSTREAMS ∧
            h2.num_requested_outbound_streams < h2.pending_messages.length
        · rw [if_pos hg] at hreq2 ⊢
          exact ⟨hg.1, hg.2, rfl⟩
        · rw [if_neg hg] at hreq2
          cases hreq2
  unfold Handler.poll at hreq ⊢
  cases hst : h.protocol_status with
  | none =>
    rw [hst] at hreq
    exact key hreq
  | some status =>
    rw [hst] at hreq
    dsimp only at hreq ⊢
    by_cases hrep : status.reported = true
    · rw [if_pos hrep] at hreq ⊢
      exact key hreq
    · rw [if_neg hrep] at hreq
      dsimp only at hreq
      simp at hreq

/-- Witness for C1 at the initial handler. -/
theorem C1_outbound_bound_witness :
    (Handler.new [] 0 ConnectedPoint.Dialer Mode.Server 0).outbound_substreams.length +
        (Handler.new [] 0 ConnectedPoint.Dialer
          Mode.Server 0).num_requested_outbound_streams ≤
      MAX_NUM_SUBSTREAMS :=
  (C1_outbound_bound _ (Reachable.init [] 0 ConnectedPoint.Dialer Mode.Server 0)).1

/-- C10: in every reachable state, every stamped live inbound exchange carries
a `UniqueConnecId` strictly below `next_connec_unique_id`, no two live inbound
exchanges carry equal stamps, and a `RequestId` identifies at most one inbound
exchange. -/
theorem C10_unique_stamps (h : Handler) (hr : Reachable h) :
    (∀ c ∈ inbound_stamps h.inbound_substreams, c < h.next_connec_unique_id) ∧
    (inbound_stamps h.inbound_substreams).Nodup ∧
    (∀ rid : RequestId,
      h.inbound_substreams.countP
          (fun st => inbound_stamp st == some rid.connec_unique_id) ≤ 1) := by
  have hinv := reachable_inv h hr
  refine ⟨hinv.stampsLt, hinv.stampsNodup, ?_⟩
  intro rid
  rw [countP_inbound_stamp]
  exact List.nodup_iff_count_le_one.mp hinv.stampsNodup rid.connec_unique_id

/-- Witness for C10 at the initial handler. -/
theorem C10_unique_stamps_witness :
    (inbound_stamps
        (Handler.new [] 0 ConnectedPoint.Dialer Mode.Server 0).inbound_substreams).Nodup :=
  (C10_unique_stamps _ (Reachable.init [] 0 ConnectedPoint.Dialer Mode.Server 0)).2.1

/-- C2 as stated is false on the code: with an empty pool, a keep-until
deadline that already lies in the past is preserved by the keep-alive update
instead of being reset to `now + idle_timeout`. Concretely, polling the fresh
handler (deadline `Until 0`, idle timeout 0) at instant 100 returns `Pending`
with both pools empty and leaves `Until 0`, where the claim requires
`Until (100 + idle_timeout) = Until 100`. -/
theorem C2_keep_alive_counterexample :
    Reachable (Handler.new [] 0 ConnectedPoint.Dialer Mode.Server 0) ∧
    (Handler.new [] 0 ConnectedPoint.Dialer Mode.Server 0).keep_alive =
      KeepAlive.Until 0 ∧
    (0 : Nat) < 100 ∧
    ((Handler.new [] 0 ConnectedPoint.Dialer Mode.Server 0).poll
        { outOracles := [], inOracles := [], now := 100 }).2 = PollResult.pending ∧
    ((Handler.new [] 0 ConnectedPoint.Dialer Mode.Server 0).poll
        { outOracles := [], inOracles := [], now := 100 }).1.outbound_substreams = [] ∧
    ((Handler.new [] 0 ConnectedPoint.Dialer Mode.Server 0).poll
        { outOracles := [], inOracles := [], now := 100 }).1.inbound_substreams = [] ∧
    ((Handler.new [] 0 ConnectedPoint.Dialer Mode.Server 0).poll
        { outOracles := [], inOracles := [], now := 100 }).1.keep_alive =
      KeepAlive.Until 0 ∧
    KeepAlive.Until 0 ≠
      KeepAlive.Until (100 +
        (Handler.new [] 0 ConnectedPoint.Dialer Mode.Server 0).idle_timeout) :=
  ⟨Reachable.init [] 0 ConnectedPoint.Dialer Mode.Server 0, by decide, by decide,
    by decide, by decide, by decide, by decide, by decide⟩

/-- C2 amended (matching the code): when a poll reaches the keep-alive update
step (the poll returns `Pending`), then: if any exchange is live after the
pools were polled, `keep_alive` becomes `Yes`; if none is live, an existing
`Until` deadline is preserved unchanged — whether it lies in the future or in
the past — and any non-`Until` value is replaced by
`Until (now + idle_timeout)`. -/
theorem C2_keep_alive_update (h : Handler) (inp : PollInputs)
    (hp : (h.poll inp).2 = PollResult.pending) :
    (((h.poll inp).1.outbound_substreams.isEmpty &&
        (h.poll inp).1.inbound_substreams.isEmpty) = true →
      ((∃ t, h.keep_alive = KeepAlive.Until t ∧
          (h.poll inp).1.keep_alive = KeepAlive.Until t) ∨
        ((∀ t, h.keep_alive ≠ KeepAlive.Until t) ∧
          (h.poll inp).1.keep_alive =
            KeepAlive.Until (inp.now + h.idle_timeout)))) ∧
    (((h.poll inp).1.outbound_substreams.isEmpty &&
        (h.poll inp).1.inbound_substreams.isEmpty) = false →
      (h.poll inp).1.keep_alive = KeepAlive.Yes) := by
  have hframe : (h.poll_pools inp).1.keep_alive = h.keep_alive ∧
      (h.poll_pools inp).1.idle_timeout = h.idle_timeout := by
    obtain ⟨outPool, inPool, ev, heq, -, -, -, -⟩ := poll_pools_spec h inp
    rw [heq]
    exact ⟨rfl, rfl⟩
  have key : (h.poll_rest inp).2 = PollResult.pending →
      (((h.poll_rest inp).1.outbound_substreams.isEmpty &&
          (h.poll_rest inp).1.inbound_substreams.isEmpty) = true →
        ((∃ t, h.keep_alive = KeepAlive.Until t ∧
            (h.poll_rest inp).1.keep_alive = KeepAlive.Until t) ∨
          ((∀ t, h.keep_alive ≠ KeepAlive.Until t) ∧
            (h.poll_rest inp).1.keep_alive =
              KeepAlive.Until (inp.now + h.idle_timeout)))) ∧
      (((h.poll_rest inp).1.outbound_substreams.isEmpty &&
          (h.poll_rest inp).1.inbound_substreams.isEmpty) = false →
        (h.poll_rest inp).1.keep_alive = KeepAlive.Yes) := by
    intro hp2
    unfold Handler.poll_rest at hp2 ⊢
    cases hpp : h.poll_pools inp with
    | mk h2 ev =>
      rw [hpp] at hp2 hframe
      cases ev with
      | some e => cases hp2
      | none =>
        dsimp only at hp2 hframe ⊢
        obtain ⟨hka, hidle⟩ := hframe
        unfold Handler.poll_tail at hp2 ⊢
        split at hp2
        · cases hp2
        · rename_i hguard
          rw [if_neg hguard]
          dsimp only
          rw [hka, hidle]
          cases hb : h2.outbound_substreams.isEmpty && h2.inbound_substreams.isEmpty with
          | true =>
            refine ⟨fun _ => ?_, fun hfalse => ?_⟩
            · rw [← hka]
              cases hk : h2.keep_alive with
              | Until t => exact Or.inl ⟨t, rfl, rfl⟩
              | Yes =>
                refine Or.inr ⟨?_, rfl⟩
                intro t hcon
                cases hcon
              | No =>
                refine Or.inr ⟨?_, rfl⟩
                intro t hcon
                cases hcon
            · cases hfalse
          | false => exact ⟨fun htrue => Bool.noConfusion htrue, fun _ => rfl⟩
  unfold Handler.poll at hp ⊢
  cases hst : h.protocol_status with
  | none =>
    rw [hst] at hp
    exact key hp
  | some status =>
    rw [hst] at hp
    dsimp only at hp ⊢
    by_cases hrep : status.reported = true
    · rw [if_pos hrep] at hp ⊢
      exact key hp
    · rw [if_neg hrep] at hp
      cases hp

/-- Witness for C2 at the fresh handler polled at instant 100. -/
theorem C2_keep_alive_update_witness :
    (∃ t, (Handler.new [] 0 ConnectedPoint.Dialer Mode.Server 0).keep_alive =
        KeepAlive.Until t ∧
      ((Handler.new [] 0 ConnectedPoint.Dialer Mode.Server 0).poll
          { outOracles := [], inOracles := [], now := 100 }).1.keep_alive =
        KeepAlive.Until t) ∨
    ((∀ t, (Handler.new [] 0 ConnectedPoint.Dialer Mode.Server 0).keep_alive ≠
        KeepAlive.Until t) ∧
      ((Handler.new [] 0 ConnectedPoint.Dialer Mode.Server 0).poll
          { outOracles := [], inOracles := [], now := 100 }).1.keep_alive =
        KeepAlive.Until (100 +
          (Handler.new [] 0 ConnectedPoint.Dialer Mode.Server 0).idle_timeout)) :=
  (C2_keep_alive_update _ _ (by decide)).1 (by decide)

/-- When `answer_pending_request`'s `debug_assert!` fires, the handler is
unchanged. -/
theorem answer_pending_request_fired (h : Handler) (rid : RequestId)
    (msg : KadResponseMsg) (hf : (h.answer_pending_request rid msg).2 = true) :
    (h.answer_pending_request rid msg).1 = h := by
  unfold Handler.answer_pending_request at hf ⊢
  simp only at hf ⊢
  rw [answer_sweep_fired rid msg h.inbound_substreams hf]

/-- C6 as stated is false on the code: the `debug_assert!` in
`answer_pending_request` (handler.rs:879) is reachable on external input — a
behaviour answer whose `RequestId` matches no inbound exchange fires it in the
initial (reachable) state, under an input the connection-layer contract
allows. -/
theorem C6_assert_reachable_counterexample :
    Reachable (Handler.new [] 0 ConnectedPoint.Dialer Mode.Server 0) ∧
    ValidInput (Handler.new [] 0 ConnectedPoint.Dialer Mode.Server 0)
      (HandlerInput.behaviour (HandlerIn.FindNodeRes [] { connec_unique_id := 0 })) ∧
    ((Handler.new [] 0 ConnectedPoint.Dialer Mode.Server 0).step
        (HandlerInput.behaviour
          (HandlerIn.FindNodeRes [] { connec_unique_id := 0 }))).2.assertFired =
      true :=
  ⟨Reachable.init [] 0 ConnectedPoint.Dialer Mode.Server 0, True.intro, by decide⟩

/-- C6 amended: on every reachable state and contract-respecting external
input, the unconditional decrements of `num_requested_outbound_streams` never
underflow, the `debug_assert!` of `on_fully_negotiated_outbound` never fires,
the `debug_assert!` of `answer_pending_request` can fire but only when the
command changes nothing — the handler state is left intact — and the
`Poisoned` sentinels stay unreachable in both pools. -/
theorem C6_no_panic (h : Handler) (inp : HandlerInput) (hr : Reachable h)
    (hv : ValidInput h inp) :
    (h.step inp).2.underflow = false ∧
    (∀ s : Substream, inp = HandlerInput.fullyNegotiatedOutbound s →
      (h.step inp).2.assertFired = false) ∧
    ((h.step inp).2.assertFired = true → (h.step inp).1 = h) ∧
    OutboundSubstreamState.Poisoned ∉ h.outbound_substreams ∧
    InboundSubstreamState.Poisoned ∉ h.inbound_substreams := by
  have hinv := reachable_inv h hr
  refine ⟨?_, ?_, ?_, hinv.noPoisonOut, hinv.noPoisonIn⟩
  · cases inp with
    | behaviour m =>
      cases hb : h.on_behaviour_event m with
      | mk h' fired => simp [Handler.step, hb]
    | fullyNegotiatedOutbound s =>
      have hreq : 0 < h.num_requested_outbound_streams := hinv.envSync ▸ hv
      cases hp : h.pending_messages with
      | nil =>
        simp only [Handler.step, Handler.on_fully_negotiated_outbound, hp]
        simp only [beq_eq_false_iff_ne, ne_eq]
        omega
      | cons head rest =>
        cases head with
        | mk msg qid =>
          simp only [Handler.step, Handler.on_fully_negotiated_outbound, hp]
          simp only [beq_eq_false_iff_ne, ne_eq]
          omega
    | fullyNegotiatedInbound s => rfl
    | dialUpgradeError e =>
      have hreq : 0 < h.num_requested_outbound_streams := hinv.envSync ▸ hv
      cases hp : h.pending_messages with
      | nil =>
        simp only [Handler.step, Handler.on_dial_upgrade_error, hp]
        simp only [beq_eq_false_iff_ne, ne_eq]
        omega
      | cons head rest =>
        cases head with
        | mk msg qid =>
          cases qid with
          | none =>
            simp only [Handler.step, Handler.on_dial_upgrade_error, hp]
            simp only [beq_eq_false_iff_ne, ne_eq]
            omega
          | some q =>
            simp only [Handler.step, Handler.on_dial_upgrade_error, hp]
            simp only [beq_eq_false_iff_ne, ne_eq]
            omega
    | remoteProtocolsChange ps => rfl
    | otherConnectionEvent => rfl
    | poll inp2 => rfl
  · intro s heq
    subst heq
    have hreq : 0 < h.num_requested_outbound_streams := hinv.envSync ▸ hv
    cases hp : h.pending_messages with
    | nil =>
      exfalso
      have := hinv.reqLe
      rw [hp] at this
      simp at this
      omega
    | cons head rest =>
      cases head with
      | mk msg qid =>
        simp [Handler.step, Handler.on_fully_negotiated_outbound, hp]
  · intro hfired
    cases inp with
    | behaviour m =>
      cases m with
      | Reset rid => simp [Handler.step, Handler.on_behaviour_event] at hfired
      | ReconfigureMode mo => simp [Handler.step, Handler.on_behaviour_event] at hfired
      | FindNodeReq key qid => simp [Handler.step, Handler.on_behaviour_event] at hfired
      | GetProvidersReq key qid =>
        simp [Handler.step, Handler.on_behaviour_event] at hfired
      | AddProvider key provider =>
        simp [Handler.step, Handler.on_behaviour_event] at hfired
      | GetRecord key qid => simp [Handler.step, Handler.on_behaviour_event] at hfired
      | PutRecord record qid => simp [Handler.step, Handler.on_behaviour_event] at hfired
      | FindNodeRes cp rid =>
        simp only [Handler.step, Handler.on_behaviour_event] at hfired ⊢
        exact answer_pending_request_fired h rid _ hfired
      | GetProvidersRes cp pp rid =>
        simp only [Handler.step, Handler.on_behaviour_event] at hfired ⊢
        exact answer_pending_request_fired h rid _ hfired
      | GetRecordRes record cp rid =>
        simp only [Handler.step, Handler.on_behaviour_event] at hfired ⊢
        exact answer_pending_request_fired h rid _ hfired
      | PutRecordRes key value rid =>
        simp only [Handler.step, Handler.on_behaviour_event] at hfired ⊢
        exact answer_pending_request_fired h rid _ hfired
    | fullyNegotiatedOutbound s =>
      exfalso
      have hreq : 0 < h.num_requested_outbound_streams := hinv.envSync ▸ hv
      cases hp : h.pending_messages with
      | nil =>
        have := hinv.reqLe
        rw [hp] at this
        simp at this
        omega
      | cons head rest =>
        cases head with
        | mk msg qid =>
          simp [Handler.step, Handler.on_fully_negotiated_outbound, hp] at hfired
    | fullyNegotiatedInbound s => cases hfired
    | dialUpgradeError e =>
      exfalso
      cases hp : h.pending_messages with
      | nil => simp [Handler.step, Handler.on_dial_upgrade_error, hp] at hfired
      | cons head rest =>
        cases head with
        | mk msg qid =>
          cases qid with
          | none => simp [Handler.step, Handler.on_dial_upgrade_error, hp] at hfired
          | some q => simp [Handler.step, Handler.on_dial_upgrade_error, hp] at hfired
    | remoteProtocolsChange ps => cases hfired
    | otherConnectionEvent => cases hfired
    | poll inp2 => cases hfired

/-- Witness for C6 at the initial handler and an ignored connection event. -/
theorem C6_no_panic_witness :
    ((Handler.new [] 0 ConnectedPoint.Dialer Mode.Server 0).step
        HandlerInput.otherConnectionEvent).2.underflow = false :=
  (C6_no_panic _ HandlerInput.otherConnectionEvent
    (Reachable.init [] 0 ConnectedPoint.Dialer Mode.Server 0) True.intro).1

end KadHandler
